import Mathlib

/-! ACL command handlers (`src/modules/acl/commands.go`).

A shallow embedding of the ACL plugin: the dispatcher `HandleCommand`, the
handlers it calls (`handleAuth`, `handleCat`, `handleUsers`,
`handleWhoAmI`, `handleList` and the handlers not implemented) and the
constructor `NewModule`, together with the properties of their results.

Conventions of the embedding:

* a Go `string` is a Lean `String`; `len(s)` is the UTF-8 byte size;
* a handler result `([]byte, error)` is `Except String String`:
  `.error msg` for `nil, errors.New(msg)` and `.ok reply` for `reply, nil`;
* `fmt.Sprintf` calls are written out as concatenations, `%d` being the
  decimal rendering `toString` of a natural number;
* a Go slice is a `List`; a `for ... range` loop over a slice is a left
  fold of the loop body over it;
* a Go `map[string][]string` is the list of its entries with pairwise
  distinct keys; the order in which `range` visits a map is not fixed by
  the language, so the handler receives it as the argument `range`;
* the dispatcher indexes `cmd` without a length check: its result is an
  `Option`, `none` standing for a run stopped by an index out of range;
* constants and methods declared outside this file of the package
  (`utils.WRONG_ARGS_RESPONSE`, `utils.OK_RESPONSE`, the category names,
  `AuthenticateConnection`) are arguments, and so are the case tables of
  the standard library that `strings.EqualFold` and `strings.ToLower`
  consult (`CaseTables`).
-/

set_option linter.dupNamespace false

namespace acl

/-! ## Strings -/

/-- Byte length of a string, Go's `len(s)`. -/
def len (s : String) : Nat := s.utf8ByteSize

/-- The case tables of Go's package `unicode`, which `strings.EqualFold`
and `strings.ToLower` consult; they are data of the standard library and
are an argument of the embedding. `foldRune c` is the representative of
the orbit of `c` under `unicode.SimpleFold` (two characters are equal
under simple case folding when they have the same representative), and
`ToLower` is `unicode.ToLower`. -/
structure CaseTables where
  foldRune : Char → Char
  ToLower : Char → Char

/-- The characters of a string, each replaced by the representative of its
folding orbit. -/
def fold (unicode : CaseTables) (s : String) : List Char := s.data.map unicode.foldRune

/-- Go's `strings.EqualFold(s, t)`: the two strings have as many
characters and these are pairwise equal under simple case folding. -/
def equalFold (unicode : CaseTables) (s t : String) : Bool := fold unicode s == fold unicode t

/-- Go's `strings.ToLower(s)`: every character mapped by `unicode.ToLower`. -/
def toLower (unicode : CaseTables) (s : String) : String := ⟨s.data.map unicode.ToLower⟩

/-! ## Data model -/

/-- One password entry of a user. -/
structure Password where
  PasswordType : String
  PasswordValue : String
deriving DecidableEq, Repr

/-- The fields of `User` read by the handlers. -/
structure User where
  Username : String
  Enabled : Bool
  Passwords : List Password := []
  IncludedCategories : List String := []
  ExcludedCategories : List String := []
  IncludedCommands : List String := []
  ExcludedCommands : List String := []
  IncludedKeys : List String := []
  IncludedReadKeys : List String := []
  IncludedWriteKeys : List String := []
  IncludedPubSubChannels : List String := []
  ExcludedPubSubChannels : List String := []
deriving DecidableEq, Repr

/-- A connection handle, the pointer `*net.Conn` used as a map key. -/
abbrev Conn := Nat

/-- The field of a `Connection` read by `handleWhoAmI`; the declaration is
outside the listed sources and the field is taken to hold a `User` value. -/
structure Connection where
  User : User
deriving DecidableEq, Repr

/-- The user store `p.acl`: the handlers read the fields `Users` and
`Connections`, the latter a Go map given by its entries. -/
structure ACL where
  Users : List User
  Connections : List (Conn × Connection) := []
deriving DecidableEq, Repr

/-- The result `([]string, error)` of a key-extraction function. -/
abbrev Keys := Except String (List String)

/-- The record `utils.SubCommand` with the fields that `NewModule` writes
and `handleCat` reads; a field left out of a literal has Go's zero value,
`none` being the nil function. -/
structure SubCommand where
  Command : String
  Categories : List String
  Description : String := ""
  Sync : Bool := false
  KeyExtractionFunc : Option (List String → Keys) := none

/-- The record `utils.Command` with the fields that `NewModule` writes
and `handleCat` reads; a field left out of a literal has Go's zero value,
`none` being the nil function. -/
structure Command where
  Command : String
  Categories : List String
  SubCommands : List SubCommand := []
  Description : String := ""
  Sync : Bool := false
  KeyExtractionFunc : Option (List String → Keys) := none

/-! ## `handleList` -/

/-- Body of the loop over `user.Passwords` (lines 176-183): two
independent `if` statements. -/
def passwordStep (unicode : CaseTables) (s : String) (password : Password) : String :=
  let s := if equalFold unicode password.PasswordType "plaintext" then
      s ++ " " ++ password.PasswordValue else s
  let s := if equalFold unicode password.PasswordType "SHA256" then
      s ++ " #" ++ password.PasswordValue else s
  s

/-- Body of the loops over categories and commands (lines 185-215): the
entry `*` is written as `all`, any other entry as it is; `sign` is one of
`" +@"`, `" -@"`, `" +"`, `" -"`. -/
def blanketStep (sign : String) (s : String) (entry : String) : String :=
  if entry = "*" then s ++ sign ++ "all" else s ++ sign ++ entry

/-- Body of the loops over key patterns (lines 217-227),
`s += fmt.Sprintf(" %s~%s", tag, key)`. -/
def keyStep (tag : String) (s : String) (key : String) : String :=
  s ++ " " ++ tag ++ "~" ++ key

/-- Body of the loops over pub/sub channels (lines 229-235). -/
def channelStep (sign : String) (s : String) (channel : String) : String :=
  s ++ sign ++ channel

/-- The three loops over key patterns (lines 216-227). The third loop,
commented `Included write keys`, ranges over `user.IncludedReadKeys`. -/
def renderKeys (s : String) (user : User) : String :=
  let s := user.IncludedKeys.foldl (keyStep "%RW") s
  let s := user.IncludedReadKeys.foldl (keyStep "%R") s
  let s := user.IncludedReadKeys.foldl (keyStep "%W") s
  s

/-- The loops of lines 184-235 run on the accumulator `s`: categories,
commands, key patterns, channels. -/
def renderRules (s : String) (user : User) : String :=
  let s := user.IncludedCategories.foldl (blanketStep " +@") s
  let s := user.ExcludedCategories.foldl (blanketStep " -@") s
  let s := user.IncludedCommands.foldl (blanketStep " +") s
  let s := user.ExcludedCommands.foldl (blanketStep " -") s
  let s := renderKeys s user
  let s := user.IncludedPubSubChannels.foldl (channelStep " +&") s
  let s := user.ExcludedPubSubChannels.foldl (channelStep " -&") s
  s

/-- The line built for one user by the body of the loop of `handleList`
(lines 168-235); the body starts by overwriting `s` with the username. -/
def userLine (unicode : CaseTables) (user : User) : String :=
  let s := user.Username
  let s := if user.Enabled then s ++ " on" else s ++ " off"
  let s := user.Passwords.foldl (passwordStep unicode) s
  renderRules s user

/-- One iteration of the loop of `handleList` on the pair `(res, s)`. -/
def listStep (unicode : CaseTables) (acc : String × String) (user : User) : String × String :=
  let s := userLine unicode user
  (acc.1 ++ "\r\n$" ++ toString (len s) ++ "\r\n" ++ s, s)

/-- The handler `Plugin.handleList` (lines 161-241). -/
def handleList (unicode : CaseTables)
    (WRONG_ARGS_RESPONSE : String) (acl : ACL) (cmd : List String) :
    Except String String :=
  if cmd.length > 2 then .error WRONG_ARGS_RESPONSE
  else
    let res := "*" ++ toString acl.Users.length
    let s := ""
    let res := (acl.Users.foldl (listStep unicode) (res, s)).1
    let res := res ++ "\r\n\n"
    .ok res

/-! ## `handleUsers` -/

/-- The handler `Plugin.handleUsers` (lines 139-146). -/
def handleUsers (acl : ACL) (_cmd : List String) : Except String String :=
  let res := "*" ++ toString acl.Users.length
  let res := acl.Users.foldl
    (fun res user => res ++ ("\r\n$" ++ toString (len user.Username) ++ "\r\n" ++ user.Username))
    res
  let res := res ++ "\r\n\n"
  .ok res

/-! ## `handleCat` -/

/-- A Go `map[string][]string`: its entries, keys pairwise distinct. -/
abbrev CategoryMap := List (String × List String)

/-- The statement `categories[category] = append(categories[category], token)`. -/
def mapAppend : CategoryMap → String → String → CategoryMap
  | [], category, token => [(category, [token])]
  | (key, tokens) :: rest, category, token =>
    if key = category then (key, tokens ++ [token]) :: rest
    else (key, tokens) :: mapAppend rest category token

/-- The loop over `commands` of lines 88-101: a command without
subcommands is recorded under each of its categories and the loop
continues with the next command; otherwise only its subcommands are
recorded, as `command|subcommand`. -/
def buildCategories (commands : List Command) : CategoryMap :=
  commands.foldl
    (fun categories command =>
      if command.SubCommands.length = 0 then
        command.Categories.foldl
          (fun categories category => mapAppend categories category command.Command)
          categories
      else
        command.SubCommands.foldl
          (fun categories subcommand =>
            subcommand.Categories.foldl
              (fun categories category =>
                mapAppend categories category (command.Command ++ "|" ++ subcommand.Command))
              categories)
          categories)
    []

/-- The loops `for i, x := range xs` of lines 111-116 and 125-130 on the
accumulator `res`: `i` is the index of `x`, `n` is `len(xs)`. -/
def simpleStrings (n : Nat) : Nat → String → List String → String
  | _, res, [] => res
  | i, res, x :: xs =>
    let res := res ++ "\r\n+" ++ x
    let res := if (i : Int) = (n : Int) - 1 then res ++ "\r\n\n" else res
    simpleStrings n (i + 1) res xs

/-- The loop over the map of lines 122-133: the first visited entry whose
key equals `arg` ignoring case produces the reply. -/
def findCategory (unicode : CaseTables) (arg : String) : CategoryMap → Option String
  | [] => none
  | (category, commands) :: rest =>
    if equalFold unicode category arg then
      let res := "*" ++ toString commands.length
      some (simpleStrings commands.length 0 res commands)
    else findCategory unicode arg rest

/-- The handler `Plugin.handleCat` (lines 79-137); `range categories` is
the sequence of entries in the order the two loops over the map visit
them. -/
def handleCat (unicode : CaseTables) (WRONG_ARGS_RESPONSE : String) (commands : List Command)
    (range : CategoryMap → CategoryMap) (cmd : List String) : Except String String :=
  if cmd.length > 3 then .error WRONG_ARGS_RESPONSE
  else
    let categories := buildCategories commands
    if cmd.length = 2 then
      let (cats, length) := (range categories).foldl
        (fun (acc : List String × Nat) entry => (acc.1 ++ [entry.1], acc.2 + 1)) ([], 0)
      let res := "*" ++ toString length
      .ok (simpleStrings cats.length 0 res cats)
    else
      match cmd with
      | [_, _, arg] =>
        match findCategory unicode arg (range categories) with
        | some res => .ok res
        | none => .error "category not found"
      | _ => .error "category not found"

/-! ## `handleAuth`, `handleWhoAmI` and the handlers not implemented -/

/-- The handler `Plugin.handleAuth` (lines 65-73). The method
`p.acl.AuthenticateConnection` is declared outside the listed sources and
is an argument: it answers `none` for a nil error and `some err` for an
error. -/
def handleAuth (WRONG_ARGS_RESPONSE OK_RESPONSE : String)
    (AuthenticateConnection : Conn → List String → Option String)
    (conn : Conn) (cmd : List String) : Except String String :=
  if cmd.length < 2 ∨ cmd.length > 3 then .error WRONG_ARGS_RESPONSE
  else
    match AuthenticateConnection conn cmd with
    | some err => .error err
    | none => .ok OK_RESPONSE

/-- The handler `Plugin.handleGetUser` (lines 75-77). -/
def handleGetUser (_cmd : List String) : Except String String :=
  .error "ACL GET USER not implemented"

/-- The handler `Plugin.handleSetUser` (lines 148-150). -/
def handleSetUser (_cmd : List String) : Except String String :=
  .error "ACL SETUSER not implemented"

/-- The handler `Plugin.handleDelUser` (lines 152-154); the body does not
read or write the store. -/
def handleDelUser (_acl : ACL) (_cmd : List String) : Except String String :=
  .error "ACL DELUSER not implemented"

/-- The handler `Plugin.handleLoad` (lines 243-245). -/
def handleLoad (_cmd : List String) : Except String String :=
  .error "ACL LOAD not implemented"

/-- The handler `Plugin.handleSave` (lines 247-250); the store it prints
on the standard output is not part of the result. -/
def handleSave (_cmd : List String) : Except String String :=
  .error "ACL SAVE not implemented"

/-- The zero value of `User`. -/
def User.zero : User :=
  { Username := ""
    Enabled := false }

/-- The zero value of `Connection`. -/
def Connection.zero : Connection :=
  { User := User.zero }

/-- The map index `connections[conn]`: the entry of the key, or the zero
value when the key is missing. -/
def mapIndex : List (Conn × Connection) → Conn → Connection
  | [], _ => Connection.zero
  | (key, connectionInfo) :: rest, conn =>
    if key = conn then connectionInfo else mapIndex rest conn

/-- The handler `Plugin.handleWhoAmI` (lines 156-159). -/
def handleWhoAmI (acl : ACL) (conn : Conn) (_cmd : List String) : Except String String :=
  let connectionInfo := mapIndex acl.Connections conn
  .ok ("+" ++ connectionInfo.User.Username ++ "\r\n\n")

/-! ## `HandleCommand` -/

/-- The dispatcher `Plugin.HandleCommand` (lines 34-63). The result is
`none` when the run stops on an index out of range (`cmd[0]` or `cmd[1]`
read past the end of `cmd`). The `switch` is written as the chain of its
cases, the `default` case last. -/
def HandleCommand (unicode : CaseTables) (WRONG_ARGS_RESPONSE OK_RESPONSE : String) (acl : ACL)
    (AuthenticateConnection : Conn → List String → Option String)
    (commands : List Command) (range : CategoryMap → CategoryMap)
    (conn : Conn) (cmd : List String) : Option (Except String String) :=
  match cmd[0]? with
  | none => none
  | some first =>
    if equalFold unicode first "auth" then
      some (handleAuth WRONG_ARGS_RESPONSE OK_RESPONSE AuthenticateConnection conn cmd)
    else if equalFold unicode first "acl" then
      match cmd[1]? with
      | none => none
      | some second =>
        let subcommand := toLower unicode second
        if subcommand = "getuser" then some (handleGetUser cmd)
        else if subcommand = "cat" then
          some (handleCat unicode WRONG_ARGS_RESPONSE commands range cmd)
        else if subcommand = "users" then some (handleUsers acl cmd)
        else if subcommand = "setuser" then some (handleSetUser cmd)
        else if subcommand = "deluser" then some (handleDelUser acl cmd)
        else if subcommand = "whoami" then some (handleWhoAmI acl conn cmd)
        else if subcommand = "list" then some (handleList unicode WRONG_ARGS_RESPONSE acl cmd)
        else if subcommand = "load" then some (handleLoad cmd)
        else if subcommand = "save" then some (handleSave cmd)
        else some (.error "not implemented")
    else some (.error "not implemented")

/-! ## `NewModule` -/

/-- The category constants of package `utils` used by `NewModule`; they
are declared outside the listed sources. -/
structure Utils where
  ConnectionCategory : String
  SlowCategory : String
  AdminCategory : String
  DangerousCategory : String
  FastCategory : String

/-- The record `Plugin`. -/
structure Plugin where
  name : String
  commands : List Command
  categories : List String := []
  description : String
  acl : ACL

/-- The constructor `NewModule` (lines 252-359). -/
def NewModule (utils : Utils) (acl : ACL) : Plugin :=
  { acl := acl
    name := "ACLCommands"
    commands :=
      [ { Command := "auth"
          Categories := [utils.ConnectionCategory, utils.SlowCategory]
          Description := "(AUTH [username] password) Authenticates the connection"
          Sync := false
          KeyExtractionFunc := some fun _cmd => .ok [] },
        { Command := "acl"
          Categories := []
          Description := "Access-Control-List commands"
          Sync := false
          SubCommands :=
            [ { Command := "cat"
                Categories := [utils.SlowCategory]
                Description :=
                  "(ACL CAT [category]) List all the categories and commands inside a category."
                Sync := false
                KeyExtractionFunc := some fun _cmd => .ok [] },
              { Command := "users"
                Categories :=
                  [utils.AdminCategory, utils.SlowCategory, utils.DangerousCategory]
                Description := "(ACL USERS) List all usersnames of the configured ACL users"
                Sync := false
                KeyExtractionFunc := some fun _cmd => .ok [] },
              { Command := "setuser"
                Categories :=
                  [utils.AdminCategory, utils.SlowCategory, utils.DangerousCategory]
                Description := "(ACL SETUSER) Configure a new or existing user"
                Sync := true
                KeyExtractionFunc := some fun _cmd => .ok [] },
              { Command := "getuser"
                Categories :=
                  [utils.AdminCategory, utils.SlowCategory, utils.DangerousCategory]
                Description := "(ACL GETUSER) List the ACL rules of a user"
                Sync := false
                KeyExtractionFunc := some fun _cmd => .ok [] },
              { Command := "deluser"
                Categories :=
                  [utils.AdminCategory, utils.SlowCategory, utils.DangerousCategory]
                Description := "(ACL DELUSER) Deletes users and terminates their connections"
                Sync := true
                KeyExtractionFunc := some fun _cmd => .ok [] },
              { Command := "whoami"
                Categories := [utils.FastCategory]
                Description :=
                  "(ACL WHOAMI) Returns the authenticated user of the current connection"
                Sync := true
                KeyExtractionFunc := some fun _cmd => .ok [] },
              { Command := "list"
                Categories :=
                  [utils.AdminCategory, utils.SlowCategory, utils.DangerousCategory]
                Description := "(ACL LIST) Dumps effective acl rules in acl config file format"
                Sync := true
                KeyExtractionFunc := some fun _cmd => .ok [] },
              { Command := "load"
                Categories :=
                  [utils.AdminCategory, utils.SlowCategory, utils.DangerousCategory]
                Description :=
                  "(ACL LOAD) Reloads the rules from the configured ACL config file"
                Sync := true
                KeyExtractionFunc := some fun _cmd => .ok [] },
              { Command := "save"
                Categories :=
                  [utils.AdminCategory, utils.SlowCategory, utils.DangerousCategory]
                Description :=
                  "(ACL SAVE) Saves the effective ACL rules the configured ACL config file"
                Sync := true
                KeyExtractionFunc := some fun _cmd => .ok [] } ] } ]
    description := "Internal plugin to handle ACL commands" }

/-! ## Reading the replies

The definitions of this section are not taken from the source: they say
what a reply is expected to contain, in the words of the design notes. -/

/-- The token expected for a password entry: the value for a
`plaintext` entry, `#value` for a `SHA256` entry; nothing for an entry of
any other type. -/
def passwordToken (unicode : CaseTables) (password : Password) : String :=
  if equalFold unicode password.PasswordType "plaintext" then " " ++ password.PasswordValue
  else if equalFold unicode password.PasswordType "SHA256" then " #" ++ password.PasswordValue
  else ""

/-- The name under which a category or command entry is written: `all`
for the blanket entry `*`. -/
def blanketName (entry : String) : String :=
  if entry = "*" then "all" else entry

/-- The bulk string `$len\r\nvalue`, preceded by the separator `\r\n`. -/
def bulkString (value : String) : String :=
  "\r\n$" ++ toString (len value) ++ "\r\n" ++ value

/-- The simple string `+value`, preceded by the separator `\r\n`. -/
def simpleString (value : String) : String :=
  "\r\n+" ++ value

/-- Every category attached to a command or to a subcommand of the table. -/
def attachedCategories (commands : List Command) : List String :=
  commands.flatMap fun command =>
    command.Categories ++ command.SubCommands.flatMap fun subcommand => subcommand.Categories

/-- The categories attached to a command that has no subcommands, or to a
subcommand. -/
def discoveredCategories (commands : List Command) : List String :=
  commands.flatMap fun command =>
    if command.SubCommands.length = 0 then command.Categories
    else command.SubCommands.flatMap fun subcommand => subcommand.Categories

/-- The command tokens of category `c` as the design notes describe
them, in table order: the name of every command tagged with `c`, and
`parent|child` for every subcommand `child` of `parent` tagged with `c`. -/
def taggedTokens (commands : List Command) (c : String) : List String :=
  commands.flatMap fun command =>
    (command.Categories.filter (fun category => category = c)).map (fun _ => command.Command)
    ++ command.SubCommands.flatMap fun subcommand =>
      (subcommand.Categories.filter (fun category => category = c)).map
        (fun _ => command.Command ++ "|" ++ subcommand.Command)

/-- The command tokens of category `c` in discovery order: the name of
every command without subcommands tagged with `c`, and `parent|child` for
every subcommand `child` of `parent` tagged with `c`; one token per tag. -/
def commandTokens (commands : List Command) (c : String) : List String :=
  commands.flatMap fun command =>
    if command.SubCommands.length = 0 then
      (command.Categories.filter (fun category => category = c)).map (fun _ => command.Command)
    else
      command.SubCommands.flatMap fun subcommand =>
        (subcommand.Categories.filter (fun category => category = c)).map
          (fun _ => command.Command ++ "|" ++ subcommand.Command)

/-- The pairs `(category, token)` in the order in which the loop of
lines 88-101 records them. -/
def recorded (commands : List Command) : List (String × String) :=
  commands.flatMap fun command =>
    if command.SubCommands.length = 0 then
      command.Categories.map (fun category => (category, command.Command))
    else
      command.SubCommands.flatMap fun subcommand =>
        subcommand.Categories.map
          (fun category => (category, command.Command ++ "|" ++ subcommand.Command))

/-- The array reply `*N` followed by its entries and, unless it is empty,
by the terminator. -/
def arrayOfSimpleStrings (values : List String) : String :=
  "*" ++ toString values.length ++ String.join (values.map simpleString)
    ++ (if values = [] then "" else "\r\n\n")

/-- The tokens recorded under the key `c` of a map; none for a missing key. -/
def tokensAt : CategoryMap → String → List String
  | [], _ => []
  | (key, tokens) :: rest, c => if key = c then tokens else tokensAt rest c

/-! ## Rule-formed users

The line grammar is read back token by token: the words of a line are
separated by single spaces and the kind of a word is told by its first
characters. The definitions below describe the users whose fields can be
told apart in that way. -/

/-- The string contains no space. -/
def noSpace (s : String) : Bool := !s.data.contains ' '

/-- The string starts with one of the given characters. -/
def startsWithAny (s : String) (cs : List Char) : Bool :=
  match s.data with
  | [] => false
  | a :: _ => cs.contains a

/-- A password entry of type `SHA256`, or of type `plaintext` with a value
that does not start like a `#`, `+`, `-` or `%` word; no space in the
value. -/
def passwordFormed (unicode : CaseTables) (p : Password) : Bool :=
  noSpace p.PasswordValue &&
    (equalFold unicode p.PasswordType "SHA256" ||
      (equalFold unicode p.PasswordType "plaintext" &&
        !startsWithAny p.PasswordValue ['#', '+', '-', '%']))

/-- A category entry: no space, and not the name `all`, which stands for
the blanket entry `*`. -/
def categoryFormed (c : String) : Bool := noSpace c && c != "all"

/-- A command entry: no space, not the name `all`, and not starting like
a category (`@`) or channel (`&`) word. -/
def commandFormed (c : String) : Bool :=
  noSpace c && c != "all" && !startsWithAny c ['@', '&']

/-- The users whose line can be read back. Nothing is asked of
`IncludedWriteKeys`, which the line does not show. -/
def ruleFormed (unicode : CaseTables) (u : User) : Bool :=
  noSpace u.Username &&
  u.Passwords.all (passwordFormed unicode) &&
  u.IncludedCategories.all categoryFormed &&
  u.ExcludedCategories.all categoryFormed &&
  u.IncludedCommands.all commandFormed &&
  u.ExcludedCommands.all commandFormed &&
  u.IncludedKeys.all noSpace &&
  u.IncludedReadKeys.all noSpace &&
  u.IncludedPubSubChannels.all noSpace &&
  u.ExcludedPubSubChannels.all noSpace

/-- What a password entry is: plaintext or hashed, and its value. -/
def passwordKind (unicode : CaseTables) (p : Password) : Bool × String :=
  (equalFold unicode p.PasswordType "plaintext", p.PasswordValue)

/-- The word of a password entry: the value, behind `#` when hashed. -/
def passwordWord (unicode : CaseTables) (p : Password) : String :=
  if equalFold unicode p.PasswordType "plaintext" then p.PasswordValue else "#" ++ p.PasswordValue

/-- The group a word belongs to, told by its first characters: 1 and 2
for `+@` and `-@`, 8 and 9 for `+&` and `-&`, 3 and 4 for other `+` and
`-` words, 5, 6 and 7 for `%RW~`, `%R~` and `%W~`, 0 otherwise. -/
def tokenClass (t : String) : Nat :=
  match t.data with
  | [] => 0
  | a :: r =>
    if a = '+' then
      match r with
      | [] => 3
      | b :: _ => if b = '@' then 1 else if b = '&' then 8 else 3
    else if a = '-' then
      match r with
      | [] => 4
      | b :: _ => if b = '@' then 2 else if b = '&' then 9 else 4
    else if a = '%' then
      match r with
      | b :: c :: _ => if b = 'W' then 7 else if c = 'W' then 5 else 6
      | _ => 0
    else 0

/-- The words of the line of a user after `on`/`off`, group by group,
each group with its number. -/
def tokenGroups (unicode : CaseTables) (u : User) : List (Nat × List String) :=
  [ (0, u.Passwords.map (passwordWord unicode)),
    (1, u.IncludedCategories.map fun c => "+@" ++ blanketName c),
    (2, u.ExcludedCategories.map fun c => "-@" ++ blanketName c),
    (3, u.IncludedCommands.map fun c => "+" ++ blanketName c),
    (4, u.ExcludedCommands.map fun c => "-" ++ blanketName c),
    (5, u.IncludedKeys.map fun key => "%RW~" ++ key),
    (6, u.IncludedReadKeys.map fun key => "%R~" ++ key),
    (7, u.IncludedReadKeys.map fun key => "%W~" ++ key),
    (8, u.IncludedPubSubChannels.map fun c => "+&" ++ c),
    (9, u.ExcludedPubSubChannels.map fun c => "-&" ++ c) ]

/-- The words of the line of a user after the username. -/
def lineTokens (unicode : CaseTables) (u : User) : List String :=
  (if u.Enabled then "on" else "off") :: (tokenGroups unicode u).flatMap Prod.snd

/-- The reply ends with the terminator `\r\n\n`. -/
def endsWithTerminator (reply : String) : Bool :=
  "\r\n\n".data.isSuffixOf reply.data

/-- The subcommands of `acl` that the dispatcher knows, in the order of
the cases of its `switch`. -/
def knownSubcommands : List String :=
  ["getuser", "cat", "users", "setuser", "deluser", "whoami", "list", "load", "save"]

/-! ## Sample data -/

/-- Sample case tables: the tables of package `unicode` on the characters
that fold or lower to an ASCII letter (the letters `A`-`Z`, the Kelvin
sign, the long s, the dotted capital I); every other character is left as
it is. They agree with the tables of the standard library on the words of
the examples below. -/
def asciiTables : CaseTables :=
  { foldRune := fun c =>
      if c = '\u212A' then 'k' else if c = '\u017F' then 's' else c.toLower
    ToLower := fun c =>
      if c = '\u212A' then 'k' else if c = '\u0130' then 'i' else c.toLower }

def bob : User :=
  { Username := "bob"
    Enabled := true
    Passwords := [⟨"plaintext", "pass1"⟩]
    IncludedCategories := ["read"]
    ExcludedCategories := ["write"]
    IncludedCommands := ["get"]
    IncludedReadKeys := ["foo:*"] }

/-- A user whose only key pattern is a write-only one. -/
def writer : User :=
  { Username := "writer"
    Enabled := true
    IncludedWriteKeys := ["cache:*"] }

/-- A user whose only key pattern is a read-only one. -/
def reader : User :=
  { Username := "reader"
    Enabled := false
    IncludedReadKeys := ["cache:*"] }

/-- A user with one password entry of a type other than `plaintext` and
`SHA256`. -/
def carol : User :=
  { Username := "carol"
    Enabled := true
    Passwords := [⟨"md5", "d41d8cd9"⟩] }

/-- A table whose command `acl` carries the category `admin` and has a
subcommand. -/
def aclTable : List Command :=
  [ { Command := "acl"
      Categories := ["admin"]
      SubCommands := [{ Command := "cat", Categories := ["slow"] }] } ]

/-- A table whose command `config` carries the category `admin` and has a
subcommand. -/
def configTable : List Command :=
  [ { Command := "ping"
      Categories := ["fast"] },
    { Command := "config"
      Categories := ["admin"]
      SubCommands := [{ Command := "get", Categories := ["slow"] }] } ]

/-- A table whose command `pubsub` carries the category `pubsub` and has a
subcommand. -/
def pubsubTable : List Command :=
  [ { Command := "pubsub"
      Categories := ["pubsub"]
      SubCommands := [{ Command := "channels", Categories := ["slow"] }] } ]

/-- A table in the shape of the one registered by `NewModule`: a command
without subcommands, and a command without categories of its own that has
subcommands. -/
def sampleTable : List Command :=
  [ { Command := "auth"
      Categories := ["connection", "slow"] },
    { Command := "acl"
      Categories := []
      SubCommands :=
        [ { Command := "cat", Categories := ["slow"] },
          { Command := "users", Categories := ["admin", "slow", "dangerous"] },
          { Command := "whoami", Categories := ["fast"] } ] } ]

/-- A user granted the blanket category entry `*`. -/
def blanketUser : User :=
  { Username := "dave"
    Enabled := true
    IncludedCategories := ["*"] }

/-- A user granted a category that is named `all`. -/
def allUser : User :=
  { Username := "dave"
    Enabled := true
    IncludedCategories := ["all"] }

/-- The user `bob` with the password type in upper case and a write-only
key pattern. -/
def bobWriter : User :=
  { bob with
    Passwords := [⟨"PLAINTEXT", "pass1"⟩]
    IncludedWriteKeys := ["bar:*"] }

/-- The reserved user `default`. -/
def defaultUser : User :=
  { Username := "default"
    Enabled := true
    Passwords := [⟨"plaintext", "secret"⟩] }

/-- A store with the users `default` and `bob`, the connection 1 bound
to `default` and the connection 2 bound to `bob`; no other connection has
an entry. -/
def sampleStore : ACL :=
  { Users := [defaultUser, bob]
    Connections := [(1, ⟨defaultUser⟩), (2, ⟨bob⟩)] }

/-- Modelled from the spec: `AuthenticateConnection` is declared outside
the listed sources. By section 4.4 the username defaults to `default`
when omitted, an unknown user, a disabled user and a password matching no
entry are refused, and a plaintext password is compared directly. Hashed
entries, whose digest function is not given, never match here. -/
def sampleAuthenticator (unicode : CaseTables)
    (acl : ACL) (_conn : Conn) (cmd : List String) : Option String :=
  let presented : String × String :=
    match cmd with
    | [_, password] => ("default", password)
    | [_, username, password] => (username, password)
    | _ => ("", "")
  match acl.Users.find? (fun user => user.Username = presented.1) with
  | none => some "user not found"
  | some user =>
    if !user.Enabled then some "user disabled"
    else if user.Passwords.any
        (fun entry => equalFold unicode entry.PasswordType "plaintext" &&
          entry.PasswordValue = presented.2) then none
    else some "invalid credential"

/-! ## Auxiliary facts on strings and folds -/

theorem join_cons (x : String) (xs : List String) :
    String.join (x :: xs) = x ++ String.join xs := by
  apply String.ext
  simp [String.data_join]

theorem join_nil : String.join [] = "" := rfl

theorem join_append (xs ys : List String) :
    String.join (xs ++ ys) = String.join xs ++ String.join ys := by
  apply String.ext
  simp [String.data_join]

theorem foldl_tokens {α : Type} (step : String → α → String) (g : α → String)
    (h : ∀ s x, step s x = s ++ g x) (l : List α) (s : String) :
    l.foldl step s = s ++ String.join (l.map g) := by
  induction l generalizing s with
  | nil => simp [join_nil]
  | cons x xs ih =>
    simp only [List.foldl_cons, List.map_cons, join_cons, ih, h, String.append_assoc]

theorem equalFold_length {unicode : CaseTables} (s t : String)
    (h : equalFold unicode s t = true) : s.data.length = t.data.length := by
  simp only [equalFold, beq_iff_eq, fold] at h
  have := congrArg List.length h
  simpa using this

theorem passwordStep_eq {unicode : CaseTables} (s : String) (p : Password) :
    passwordStep unicode s p = s ++ passwordToken unicode p := by
  have hne : ∀ t : String, equalFold unicode t "plaintext" = true →
      equalFold unicode t "SHA256" = true → False := by
    intro t h1 h2
    have l1 := equalFold_length t "plaintext" h1
    have l2 := equalFold_length t "SHA256" h2
    rw [l1] at l2
    exact absurd l2 (by decide)
  unfold passwordStep passwordToken
  by_cases h1 : equalFold unicode p.PasswordType "plaintext" = true
  · by_cases h2 : equalFold unicode p.PasswordType "SHA256" = true
    · exact (hne _ h1 h2).elim
    · simp [h1, h2, String.append_assoc]
  · by_cases h2 : equalFold unicode p.PasswordType "SHA256" = true
    · simp [h1, h2, String.append_assoc]
    · simp [h1, h2]

theorem blanketStep_eq (sign s entry : String) :
    blanketStep sign s entry = s ++ (sign ++ blanketName entry) := by
  unfold blanketStep blanketName
  split <;> simp [String.append_assoc]

theorem keyStep_eq (tag s key : String) :
    keyStep tag s key = s ++ (" " ++ tag ++ "~" ++ key) := by
  simp [keyStep, String.append_assoc]

theorem channelStep_eq (sign s channel : String) :
    channelStep sign s channel = s ++ (sign ++ channel) := by
  simp [channelStep, String.append_assoc]

/-- The key tokens written by the source, as a concatenation. -/
theorem renderKeys_eq (s : String) (u : User) :
    renderKeys s u = s ++ (String.join (u.IncludedKeys.map fun key => " %RW~" ++ key)
      ++ String.join (u.IncludedReadKeys.map fun key => " %R~" ++ key)
      ++ String.join (u.IncludedReadKeys.map fun key => " %W~" ++ key)) := by
  unfold renderKeys
  simp only [foldl_tokens _ _ (keyStep_eq _), String.append_assoc]
  rfl

theorem renderKeys_append (s : String) (u : User) :
    renderKeys s u = s ++ renderKeys "" u := by
  rw [renderKeys_eq s, renderKeys_eq ""]
  simp

theorem renderRules_eq (s : String) (u : User) :
    renderRules s u = s ++ (String.join (u.IncludedCategories.map fun c => " +@" ++ blanketName c)
      ++ String.join (u.ExcludedCategories.map fun c => " -@" ++ blanketName c)
      ++ String.join (u.IncludedCommands.map fun c => " +" ++ blanketName c)
      ++ String.join (u.ExcludedCommands.map fun c => " -" ++ blanketName c)
      ++ renderKeys "" u
      ++ String.join (u.IncludedPubSubChannels.map fun c => " +&" ++ c)
      ++ String.join (u.ExcludedPubSubChannels.map fun c => " -&" ++ c)) := by
  unfold renderRules
  simp only [foldl_tokens _ _ (blanketStep_eq _), foldl_tokens _ _ (channelStep_eq _)]
  rw [renderKeys_append]
  simp only [String.append_assoc]

theorem renderRules_append (s : String) (u : User) :
    renderRules s u = s ++ renderRules "" u := by
  rw [renderRules_eq s, renderRules_eq ""]
  simp

theorem listStep_foldl {unicode : CaseTables} (users : List User) (res s : String) :
    (users.foldl (listStep unicode) (res, s)).1
      = res ++ String.join (users.map fun u => bulkString (userLine unicode u)) := by
  induction users generalizing res s with
  | nil => simp [join_nil]
  | cons u us ih =>
    simp only [List.foldl_cons, List.map_cons, join_cons, listStep, ih, bulkString,
      String.append_assoc]

/-! ## Auxiliary facts on the category map -/

theorem keys_mapAppend (m : CategoryMap) (c t : String) :
    (mapAppend m c t).map Prod.fst
      = if c ∈ m.map Prod.fst then m.map Prod.fst else m.map Prod.fst ++ [c] := by
  induction m with
  | nil => simp [mapAppend]
  | cons e rest ih =>
    obtain ⟨k, ts⟩ := e
    by_cases hk : k = c
    · simp [mapAppend, hk]
    · have hk2 : ¬ c = k := fun h => hk h.symm
      simp only [mapAppend, hk, if_false, List.map_cons, ih, List.mem_cons, hk2, false_or]
      split <;> simp

theorem mem_keys_mapAppend (m : CategoryMap) (c t k : String) :
    k ∈ (mapAppend m c t).map Prod.fst ↔ k ∈ m.map Prod.fst ∨ k = c := by
  rw [keys_mapAppend]
  split
  · constructor
    · intro h; exact Or.inl h
    · rintro (h | h)
      · exact h
      · subst h; assumption
  · simp

theorem nodup_keys_mapAppend (m : CategoryMap) (c t : String)
    (h : (m.map Prod.fst).Nodup) : ((mapAppend m c t).map Prod.fst).Nodup := by
  rw [keys_mapAppend]
  split
  · exact h
  · rename_i hc
    rw [List.nodup_append]
    refine ⟨h, List.nodup_singleton c, ?_⟩
    intro a ha hb
    simp only [List.mem_singleton] at hb
    subst hb
    exact hc ha

theorem tokensAt_mapAppend (m : CategoryMap) (c t k : String) :
    tokensAt (mapAppend m c t) k
      = if k = c then tokensAt m c ++ [t] else tokensAt m k := by
  induction m with
  | nil =>
    by_cases h : k = c
    · simp [mapAppend, tokensAt, h]
    · have h2 : ¬ c = k := fun e => h e.symm
      simp [mapAppend, tokensAt, h, h2]
  | cons e rest ih =>
    obtain ⟨key, ts⟩ := e
    by_cases hk : key = c
    · subst hk
      by_cases h : k = key
      · subst h; simp [mapAppend, tokensAt]
      · have h2 : ¬ key = k := fun e => h e.symm
        simp [mapAppend, tokensAt, h, h2]
    · by_cases h : k = c
      · subst h
        simp [mapAppend, tokensAt, hk, ih]
      · by_cases h3 : key = k
        · simp [mapAppend, tokensAt, hk, h, h3]
        · simp [mapAppend, tokensAt, hk, h, h3, ih]

/-- Recording a sequence of pairs in a map. -/
theorem record_foldl (ps : List (String × String)) (m : CategoryMap) :
    (∀ k, k ∈ (ps.foldl (fun m p => mapAppend m p.1 p.2) m).map Prod.fst
        ↔ k ∈ m.map Prod.fst ∨ k ∈ ps.map Prod.fst)
    ∧ ((m.map Prod.fst).Nodup →
        ((ps.foldl (fun m p => mapAppend m p.1 p.2) m).map Prod.fst).Nodup)
    ∧ ∀ k, tokensAt (ps.foldl (fun m p => mapAppend m p.1 p.2) m) k
        = tokensAt m k ++ (ps.filter (fun p => p.1 = k)).map Prod.snd := by
  induction ps generalizing m with
  | nil => simp
  | cons p ps ih =>
    obtain ⟨h1, h2, h3⟩ := ih (mapAppend m p.1 p.2)
    refine ⟨?_, ?_, ?_⟩
    · intro k
      simp only [List.foldl_cons, h1, mem_keys_mapAppend, List.map_cons, List.mem_cons]
      tauto
    · intro hm
      exact h2 (nodup_keys_mapAppend m p.1 p.2 hm)
    · intro k
      simp only [List.foldl_cons, h3, tokensAt_mapAppend]
      by_cases hk : k = p.1
      · subst hk; simp
      · have hk2 : ¬ p.1 = k := fun e => hk e.symm
        simp [hk, hk2]

theorem tokensAt_of_mem (m : CategoryMap) (h : (m.map Prod.fst).Nodup)
    (k : String) (ts : List String) (hmem : (k, ts) ∈ m) : tokensAt m k = ts := by
  induction m with
  | nil => simp at hmem
  | cons e rest ih =>
    obtain ⟨key, ts2⟩ := e
    simp only [List.map_cons, List.nodup_cons] at h
    simp only [List.mem_cons, Prod.mk.injEq] at hmem
    rcases hmem with ⟨h1, h2⟩ | hmem
    · subst h1; subst h2; simp [tokensAt]
    · have hne : ¬ key = k := by
        intro e
        subst e
        exact h.1 (List.mem_map_of_mem Prod.fst hmem)
      simp [tokensAt, hne, ih h.2 hmem]

theorem buildCategories_eq (commands : List Command) :
    buildCategories commands
      = (recorded commands).foldl (fun m p => mapAppend m p.1 p.2) [] := by
  unfold buildCategories
  generalize ([] : CategoryMap) = m
  induction commands generalizing m with
  | nil => simp [recorded]
  | cons command rest ih =>
    have hrec : recorded (command :: rest)
        = (if command.SubCommands.length = 0 then
            command.Categories.map (fun category => (category, command.Command))
          else
            command.SubCommands.flatMap fun subcommand =>
              subcommand.Categories.map
                (fun category => (category, command.Command ++ "|" ++ subcommand.Command)))
          ++ recorded rest := by
      simp [recorded]
    rw [List.foldl_cons, ih, hrec, List.foldl_append]
    congr 1
    split
    · rw [List.foldl_map]
    · generalize command.SubCommands = subs
      induction subs generalizing m with
      | nil => simp
      | cons sub subs ihs =>
        simp only [List.foldl_cons, List.flatMap_cons, List.foldl_append, List.foldl_map]
        exact ihs _

theorem recorded_keys (commands : List Command) :
    (recorded commands).map Prod.fst = discoveredCategories commands := by
  induction commands with
  | nil => simp [recorded, discoveredCategories]
  | cons command rest ih =>
    have h1 : recorded (command :: rest)
        = (recorded [command]) ++ recorded rest := by simp [recorded]
    have h2 : discoveredCategories (command :: rest)
        = discoveredCategories [command] ++ discoveredCategories rest := by
      simp [discoveredCategories]
    rw [h1, h2, List.map_append, ih]
    congr 1
    simp only [recorded, discoveredCategories, List.flatMap_cons, List.flatMap_nil,
      List.append_nil]
    split
    · simp [Function.comp_def]
    · generalize command.SubCommands = subs
      induction subs with
      | nil => simp
      | cons sub subs ihs =>
        simp only [List.flatMap_cons, List.map_append, ihs]
        simp [Function.comp_def]

theorem recorded_tokens (commands : List Command) (c : String) :
    ((recorded commands).filter (fun p => p.1 = c)).map Prod.snd = commandTokens commands c := by
  induction commands with
  | nil => simp [recorded, commandTokens]
  | cons command rest ih =>
    have h1 : recorded (command :: rest)
        = (recorded [command]) ++ recorded rest := by simp [recorded]
    have h2 : commandTokens (command :: rest) c
        = commandTokens [command] c ++ commandTokens rest c := by
      simp [commandTokens]
    rw [h1, h2, List.filter_append, List.map_append, ih]
    congr 1
    simp only [recorded, commandTokens, List.flatMap_cons, List.flatMap_nil,
      List.append_nil]
    split
    · simp [List.filter_map, Function.comp_def]
    · generalize command.SubCommands = subs
      induction subs with
      | nil => simp
      | cons sub subs ihs =>
        simp only [List.flatMap_cons, List.filter_append, List.map_append, ihs]
        simp [List.filter_map, Function.comp_def]

theorem simpleString_def : simpleString = fun value => "\r\n+" ++ value := rfl

theorem simpleStrings_eq (n : Nat) (xs : List String) (i : Nat) (res : String)
    (h : i + xs.length = n) :
    simpleStrings n i res xs
      = res ++ String.join (xs.map simpleString) ++ (if xs = [] then "" else "\r\n\n") := by
  induction xs generalizing i res with
  | nil => simp [simpleStrings, join_nil]
  | cons x xs ih =>
    simp only [List.length_cons] at h
    rw [simpleStrings, ih (i + 1) _ (by omega)]
    cases xs with
    | nil =>
      have hi : (i : Int) = (n : Int) - 1 := by simp at h; omega
      simp [hi, join_cons, join_nil, simpleString, String.append_assoc]
    | cons y ys =>
      have hi : ¬ (i : Int) = (n : Int) - 1 := by simp at h; omega
      simp [hi, join_cons, simpleString, String.append_assoc]

theorem simpleStrings_array (xs : List String) :
    simpleStrings xs.length 0 ("*" ++ toString xs.length) xs = arrayOfSimpleStrings xs := by
  rw [simpleStrings_eq _ _ _ _ (by simp)]
  rfl

theorem findCategory_none {unicode : CaseTables} (arg : String) (es : CategoryMap) :
    findCategory unicode arg es = none ↔ ∀ e ∈ es, equalFold unicode e.1 arg = false := by
  induction es with
  | nil => simp [findCategory]
  | cons e rest ih =>
    obtain ⟨k, ts⟩ := e
    by_cases h : equalFold unicode k arg = true
    · simp [findCategory, h]
    · simp [findCategory, h, ih]

theorem findCategory_some {unicode : CaseTables} (arg : String) (es : CategoryMap) (res : String)
    (h : findCategory unicode arg es = some res) :
    ∃ e ∈ es, equalFold unicode e.1 arg = true ∧ res = arrayOfSimpleStrings e.2 := by
  induction es with
  | nil => simp [findCategory] at h
  | cons e rest ih =>
    obtain ⟨k, ts⟩ := e
    by_cases hk : equalFold unicode k arg = true
    · simp only [findCategory, hk, if_true, Option.some.injEq] at h
      refine ⟨(k, ts), List.mem_cons_self _ _, hk, ?_⟩
      rw [← h, simpleStrings_array]
    · simp only [findCategory, hk] at h
      obtain ⟨e, he, h1, h2⟩ := ih h
      exact ⟨e, List.mem_cons_of_mem _ he, h1, h2⟩

theorem collect_foldl (es : CategoryMap) (cats : List String) (n : Nat) :
    es.foldl (fun (acc : List String × Nat) entry => (acc.1 ++ [entry.1], acc.2 + 1)) (cats, n)
      = (cats ++ es.map Prod.fst, n + es.length) := by
  induction es generalizing cats n with
  | nil => simp
  | cons e rest ih =>
    simp only [List.foldl_cons, ih, List.map_cons, List.length_cons, List.append_assoc,
      List.singleton_append, Prod.mk.injEq, true_and]
    omega

theorem equalFold_self {unicode : CaseTables} (s : String) : equalFold unicode s s = true := by
  simp [equalFold]

theorem discovered_sub_attached (commands : List Command) (c : String)
    (h : c ∈ discoveredCategories commands) : c ∈ attachedCategories commands := by
  simp only [discoveredCategories, attachedCategories, List.mem_flatMap] at h ⊢
  obtain ⟨command, hmem, hc⟩ := h
  refine ⟨command, hmem, ?_⟩
  split at hc
  · exact List.mem_append_left _ hc
  · exact List.mem_append_right _ (by simpa [List.mem_flatMap] using hc)

/-- The keys of the map built by the source are the discovered categories,
each once, and the tokens under a key are its command tokens. -/
theorem buildCategories_spec (commands : List Command) :
    (∀ k, k ∈ (buildCategories commands).map Prod.fst ↔ k ∈ discoveredCategories commands)
    ∧ ((buildCategories commands).map Prod.fst).Nodup
    ∧ ∀ k, tokensAt (buildCategories commands) k = commandTokens commands k := by
  obtain ⟨h1, h2, h3⟩ := record_foldl (recorded commands) []
  rw [buildCategories_eq]
  refine ⟨?_, h2 (by simp), ?_⟩
  · intro k
    rw [h1, recorded_keys]
    simp
  · intro k
    rw [h3, recorded_tokens]
    simp [tokensAt]

theorem commandTokens_ne_nil (commands : List Command) (c : String)
    (h : c ∈ discoveredCategories commands) : commandTokens commands c ≠ [] := by
  rw [← recorded_keys] at h
  rw [← recorded_tokens]
  obtain ⟨p, hp, hpc⟩ := List.mem_map.1 h
  intro hnil
  have : p ∈ (recorded commands).filter (fun p => p.1 = c) := by
    simp [List.mem_filter, hp, hpc]
  rw [List.map_eq_nil_iff] at hnil
  rw [hnil] at this
  simp at this

/-! ## Auxiliary facts on the words of a line -/

theorem head_sep (a b X Y : List Char) (ha : ' ' ∉ a) (hb : ' ' ∉ b)
    (hX : ∀ c, X.head? = some c → c = ' ') (hY : ∀ c, Y.head? = some c → c = ' ')
    (h : a ++ X = b ++ Y) : a = b ∧ X = Y := by
  induction a generalizing b with
  | nil =>
    cases b with
    | nil => simpa using h
    | cons d b' =>
      exfalso
      simp only [List.nil_append] at h
      subst h
      have := hX d (by simp)
      subst this
      simp at hb
  | cons c a' ih =>
    cases b with
    | nil =>
      exfalso
      simp only [List.nil_append] at h
      subst h
      have := hY c (by simp)
      subst this
      simp at ha
    | cons d b' =>
      simp only [List.cons_append, List.cons.injEq] at h
      obtain ⟨hcd, h⟩ := h
      simp only [List.mem_cons, not_or] at ha hb
      obtain ⟨h1, h2⟩ := ih b' ha.2 hb.2 h
      exact ⟨by rw [hcd, h1], h2⟩

theorem head_spaced (ts : List (List Char)) :
    ∀ c, ((ts.map fun t => ' ' :: t).flatten).head? = some c → c = ' ' := by
  intro c h
  cases ts with
  | nil => simp at h
  | cons t r => simp at h; exact h.symm

theorem spaced_inj (ts ts' : List (List Char)) (hts : ∀ t ∈ ts, ' ' ∉ t)
    (hts' : ∀ t ∈ ts', ' ' ∉ t)
    (h : (ts.map fun t => ' ' :: t).flatten = (ts'.map fun t => ' ' :: t).flatten) :
    ts = ts' := by
  induction ts generalizing ts' with
  | nil =>
    cases ts' with
    | nil => rfl
    | cons t r => simp at h
  | cons t r ih =>
    cases ts' with
    | nil => simp at h
    | cons t' r' =>
      simp only [List.map_cons, List.flatten_cons, List.cons_append, List.cons.injEq,
        true_and] at h
      obtain ⟨h1, h2⟩ := head_sep t t' _ _ (hts t (by simp)) (hts' t' (by simp))
        (head_spaced r) (head_spaced r') h
      rw [h1, ih r' (fun x hx => hts x (by simp [hx])) (fun x hx => hts' x (by simp [hx])) h2]

theorem userLine_eq {unicode : CaseTables} (u : User) :
    userLine unicode u = u.Username ++ (if u.Enabled then " on" else " off")
      ++ String.join (u.Passwords.map (passwordToken unicode)) ++ renderRules "" u := by
  unfold userLine
  simp only [foldl_tokens _ _ passwordStep_eq]
  rw [renderRules_append]
  cases u.Enabled <;> simp [String.append_assoc]

theorem map_congr_inj {α β γ : Type} (f : α → β) (g : α → γ) (xs ys : List α)
    (h : ∀ x ∈ xs, ∀ y ∈ ys, f x = f y → g x = g y)
    (hmap : xs.map f = ys.map f) : xs.map g = ys.map g := by
  induction xs generalizing ys with
  | nil =>
    cases ys with
    | nil => rfl
    | cons y ys => simp at hmap
  | cons x xs ih =>
    cases ys with
    | nil => simp at hmap
    | cons y ys =>
      simp only [List.map_cons, List.cons.injEq] at hmap ⊢
      refine ⟨h x (by simp) y (by simp) hmap.1, ih ys ?_ hmap.2⟩
      intro a ha b hb
      exact h a (by simp [ha]) b (by simp [hb])

theorem filter_groups (k : Nat) (gs : List (Nat × List String))
    (h : ∀ g ∈ gs, ∀ t ∈ g.2, tokenClass t = g.1) :
    (gs.flatMap Prod.snd).filter (fun t => tokenClass t = k)
      = (gs.filter (fun g => g.1 = k)).flatMap Prod.snd := by
  induction gs with
  | nil => simp
  | cons g gs ih =>
    have hg : ∀ t ∈ g.2, tokenClass t = g.1 := h g (by simp)
    have ih2 := ih (fun g2 hg2 => h g2 (by simp [hg2]))
    simp only [List.flatMap_cons, List.filter_append, ih2]
    by_cases hk : g.1 = k
    · have : g.2.filter (fun t => tokenClass t = k) = g.2 := by
        rw [List.filter_eq_self]
        intro t ht
        simp [hg t ht, hk]
      simp [List.filter_cons, hk, this]
    · have : g.2.filter (fun t => tokenClass t = k) = [] := by
        rw [List.filter_eq_nil_iff]
        intro t ht
        simp [hg t ht, hk]
      simp [List.filter_cons, hk, this]

theorem not_both_kinds {unicode : CaseTables} (t : String)
    (h1 : equalFold unicode t "plaintext" = true)
    (h2 : equalFold unicode t "SHA256" = true) : False := by
  have l1 := equalFold_length t "plaintext" h1
  have l2 := equalFold_length t "SHA256" h2
  rw [l1] at l2
  exact absurd l2 (by decide)

theorem noSpace_iff (s : String) : noSpace s = true ↔ ' ' ∉ s.data := by
  simp [noSpace]

theorem ruleFormed_iff {unicode : CaseTables} (u : User) :
    ruleFormed unicode u = true ↔
      noSpace u.Username = true ∧
      (∀ p ∈ u.Passwords, passwordFormed unicode p = true) ∧
      (∀ c ∈ u.IncludedCategories, categoryFormed c = true) ∧
      (∀ c ∈ u.ExcludedCategories, categoryFormed c = true) ∧
      (∀ c ∈ u.IncludedCommands, commandFormed c = true) ∧
      (∀ c ∈ u.ExcludedCommands, commandFormed c = true) ∧
      (∀ c ∈ u.IncludedKeys, noSpace c = true) ∧
      (∀ c ∈ u.IncludedReadKeys, noSpace c = true) ∧
      (∀ c ∈ u.IncludedPubSubChannels, noSpace c = true) ∧
      (∀ c ∈ u.ExcludedPubSubChannels, noSpace c = true) := by
  simp only [ruleFormed, Bool.and_eq_true, List.all_eq_true, and_assoc]

theorem passwordToken_of_formed {unicode : CaseTables}
    (p : Password) (h : passwordFormed unicode p = true) :
    passwordToken unicode p = " " ++ passwordWord unicode p := by
  simp only [passwordFormed, Bool.and_eq_true, Bool.or_eq_true] at h
  unfold passwordToken passwordWord
  by_cases h1 : equalFold unicode p.PasswordType "plaintext" = true
  · simp [h1]
  · rcases h.2 with h2 | h2
    · simp only [h1, h2, if_true]
      rfl
    · exact absurd h2.1 h1

theorem append_left_cancel (p a b : String) (h : p ++ a = p ++ b) : a = b := by
  apply String.ext
  have := congrArg String.data h
  simpa using this

theorem blanketName_inj (a b : String) (ha : a ≠ "all") (hb : b ≠ "all")
    (h : blanketName a = blanketName b) : a = b := by
  unfold blanketName at h
  by_cases h1 : a = "*" <;> by_cases h2 : b = "*"
  · rw [h1, h2]
  · simp only [h1, h2, if_true, if_false] at h
    exact absurd h.symm hb
  · simp only [h1, h2, if_true, if_false] at h
    exact absurd h ha
  · simpa [h1, h2] using h

theorem blanketName_noSpace (c : String) (h : noSpace c = true) :
    ' ' ∉ (blanketName c).data := by
  unfold blanketName
  split
  · decide
  · exact (noSpace_iff c).1 h

theorem line_words {unicode : CaseTables} (u : User) (hu : ruleFormed unicode u = true) :
    userLine unicode u = u.Username ++ String.join ((lineTokens unicode u).map fun t => " " ++ t) := by
  obtain ⟨-, hp, -⟩ := (ruleFormed_iff u).1 hu
  have hpw : u.Passwords.map (passwordToken unicode) = u.Passwords.map fun p => " " ++ passwordWord unicode p :=
    List.map_congr_left fun p hmem => passwordToken_of_formed p (hp p hmem)
  rw [userLine_eq, renderRules_eq, renderKeys_eq, hpw]
  simp only [lineTokens, tokenGroups, List.flatMap_cons, List.flatMap_nil, List.map_cons,
    List.map_append, List.map_map, Function.comp_def, join_cons, join_append, join_nil,
    List.append_nil, String.append_assoc]
  cases u.Enabled <;> rfl

theorem class_password {unicode : CaseTables} (p : Password) (h : passwordFormed unicode p = true) :
    tokenClass (passwordWord unicode p) = 0 := by
  simp only [passwordFormed, Bool.and_eq_true, Bool.or_eq_true] at h
  unfold passwordWord
  by_cases h1 : equalFold unicode p.PasswordType "plaintext" = true
  · rcases h.2 with h2 | h2
    · exact (not_both_kinds _ h1 h2).elim
    · have h3 := h2.2
      simp only [h1, if_true]
      unfold tokenClass
      unfold startsWithAny at h3
      cases hd : p.PasswordValue.data with
      | nil => rfl
      | cons a r =>
        rw [hd] at h3
        simp at h3
        simp [h3]
  · simp only [h1]
    rfl

theorem class_command (c : String) (h : commandFormed c = true) :
    tokenClass ("+" ++ blanketName c) = 3 ∧ tokenClass ("-" ++ blanketName c) = 4 := by
  simp only [commandFormed, Bool.and_eq_true] at h
  have h3 := h.2
  unfold blanketName
  split
  · exact ⟨rfl, rfl⟩
  · unfold startsWithAny at h3
    have e1 : ("+" ++ c).data = '+' :: c.data := rfl
    have e2 : ("-" ++ c).data = '-' :: c.data := rfl
    unfold tokenClass
    rw [e1, e2]
    cases hd : c.data with
    | nil => exact ⟨rfl, rfl⟩
    | cons a r =>
      rw [hd] at h3
      simp at h3
      simp [h3]

theorem class_groups {unicode : CaseTables} (u : User) (hu : ruleFormed unicode u = true) :
    ∀ g ∈ tokenGroups unicode u, ∀ t ∈ g.2, tokenClass t = g.1 := by
  obtain ⟨-, hp, -, -, hic, hec, -⟩ := (ruleFormed_iff u).1 hu
  intro g hg t ht
  simp only [tokenGroups, List.mem_cons, List.mem_singleton, List.not_mem_nil, or_false] at hg
  rcases hg with h | h | h | h | h | h | h | h | h | h <;> subst h <;>
    simp only [List.mem_map] at ht <;> obtain ⟨x, hx, rfl⟩ := ht
  · exact class_password x (hp x hx)
  · rfl
  · rfl
  · exact (class_command x (hic x hx)).1
  · exact (class_command x (hec x hx)).2
  · rfl
  · rfl
  · rfl
  · rfl
  · rfl

theorem noSpace_groups {unicode : CaseTables} (u : User) (hu : ruleFormed unicode u = true) :
    ∀ t ∈ lineTokens unicode u, ' ' ∉ t.data := by
  obtain ⟨-, hp, h1, h2, h3, h4, h5, h6, h7, h8⟩ := (ruleFormed_iff u).1 hu
  have hcat : ∀ c, categoryFormed c = true → noSpace c = true := by
    intro c hc
    simp only [categoryFormed, Bool.and_eq_true] at hc
    exact hc.1
  have hcmd : ∀ c, commandFormed c = true → noSpace c = true := by
    intro c hc
    simp only [commandFormed, Bool.and_eq_true] at hc
    exact hc.1.1
  have hlit : ∀ (pre x : String), ' ' ∉ pre.data → ' ' ∉ x.data → ' ' ∉ (pre ++ x).data := by
    intro pre x hpre hx
    simp only [String.data_append, List.mem_append, not_or]
    exact ⟨hpre, hx⟩
  intro t ht
  simp only [lineTokens, tokenGroups, List.flatMap_cons, List.flatMap_nil, List.append_nil,
    List.mem_cons, List.mem_append, List.mem_map] at ht
  rcases ht with h | ⟨x, hx, rfl⟩ | ⟨x, hx, rfl⟩ | ⟨x, hx, rfl⟩ | ⟨x, hx, rfl⟩ | ⟨x, hx, rfl⟩
    | ⟨x, hx, rfl⟩ | ⟨x, hx, rfl⟩ | ⟨x, hx, rfl⟩ | ⟨x, hx, rfl⟩ | ⟨x, hx, rfl⟩
  · subst h
    cases u.Enabled <;> decide
  · have hf := hp x hx
    simp only [passwordFormed, Bool.and_eq_true] at hf
    unfold passwordWord
    split
    · exact (noSpace_iff _).1 hf.1
    · exact hlit _ _ (by decide) ((noSpace_iff _).1 hf.1)
  · exact hlit _ _ (by decide) (blanketName_noSpace x (hcat x (h1 x hx)))
  · exact hlit _ _ (by decide) (blanketName_noSpace x (hcat x (h2 x hx)))
  · exact hlit _ _ (by decide) (blanketName_noSpace x (hcmd x (h3 x hx)))
  · exact hlit _ _ (by decide) (blanketName_noSpace x (hcmd x (h4 x hx)))
  · exact hlit _ _ (by decide) ((noSpace_iff _).1 (h5 x hx))
  · exact hlit _ _ (by decide) ((noSpace_iff _).1 (h6 x hx))
  · exact hlit _ _ (by decide) ((noSpace_iff _).1 (h6 x hx))
  · exact hlit _ _ (by decide) ((noSpace_iff _).1 (h7 x hx))
  · exact hlit _ _ (by decide) ((noSpace_iff _).1 (h8 x hx))

theorem password_word_kind {unicode : CaseTables}
    (p q : Password) (hp : passwordFormed unicode p = true)
    (hq : passwordFormed unicode q = true) (h : passwordWord unicode p = passwordWord unicode q) :
    passwordKind unicode p = passwordKind unicode q := by
  have key : ∀ a b : Password, passwordFormed unicode a = true →
      equalFold unicode a.PasswordType "plaintext" = true →
      ¬ equalFold unicode b.PasswordType "plaintext" = true →
      a.PasswordValue = "#" ++ b.PasswordValue → False := by
    intro a b ha h1 _ heq
    simp only [passwordFormed, Bool.and_eq_true, Bool.or_eq_true] at ha
    rcases ha.2 with h2 | h2
    · exact not_both_kinds _ h1 h2
    · have h3 := h2.2
      have hd : a.PasswordValue.data = '#' :: b.PasswordValue.data := by rw [heq]; rfl
      simp [startsWithAny, hd] at h3
  unfold passwordWord at h
  unfold passwordKind
  by_cases h1 : equalFold unicode p.PasswordType "plaintext" = true <;>
    by_cases h2 : equalFold unicode q.PasswordType "plaintext" = true
  · simp only [h1, h2, if_true] at h
    simp [h1, h2, h]
  · simp only [h1, h2, if_true] at h
    exact (key p q hp h1 h2 h).elim
  · simp only [h1, h2, if_true] at h
    exact (key q p hq h2 h1 h.symm).elim
  · simp only [h1, h2] at h
    have := append_left_cancel _ _ _ h
    simp [h1, h2, this]

theorem map_inj_on {α β : Type} (f : α → β) (xs ys : List α)
    (h : ∀ x ∈ xs, ∀ y ∈ ys, f x = f y → x = y)
    (hmap : xs.map f = ys.map f) : xs = ys := by
  have := map_congr_inj f id xs ys h hmap
  simpa using this

/-- Two rule-formed users with the same line have the same words, group
by group. -/
theorem same_line_same_words {unicode : CaseTables} (u v : User) (hu : ruleFormed unicode u = true)
    (hv : ruleFormed unicode v = true) (h : userLine unicode u = userLine unicode v) :
    u.Username = v.Username ∧ u.Enabled = v.Enabled ∧
      ∀ k, ((tokenGroups unicode u).filter (fun g => g.1 = k)).flatMap Prod.snd
        = ((tokenGroups unicode v).filter (fun g => g.1 = k)).flatMap Prod.snd := by
  have hd := congrArg String.data h
  rw [line_words u hu, line_words v hv] at hd
  simp only [String.data_append, String.data_join, List.map_map] at hd
  have e : ∀ l : List String,
      List.map (String.data ∘ fun t => " " ++ t) l
        = (l.map String.data).map fun t => ' ' :: t := by
    intro l
    simp only [List.map_map]
    rfl
  rw [e, e] at hd
  have hnu := (noSpace_iff _).1 ((ruleFormed_iff u).1 hu).1
  have hnv := (noSpace_iff _).1 ((ruleFormed_iff v).1 hv).1
  obtain ⟨hname, hrest⟩ := head_sep _ _ _ _ hnu hnv (head_spaced _) (head_spaced _) hd
  have hsu : ∀ t ∈ (lineTokens unicode u).map String.data, ' ' ∉ t := by
    intro t ht
    obtain ⟨x, hx, rfl⟩ := List.mem_map.1 ht
    exact noSpace_groups u hu x hx
  have hsv : ∀ t ∈ (lineTokens unicode v).map String.data, ' ' ∉ t := by
    intro t ht
    obtain ⟨x, hx, rfl⟩ := List.mem_map.1 ht
    exact noSpace_groups v hv x hx
  have hwords := spaced_inj _ _ hsu hsv hrest
  have htok : lineTokens unicode u = lineTokens unicode v :=
    map_inj_on String.data _ _ (fun x _ y _ hxy => String.ext hxy) hwords
  simp only [lineTokens, List.cons.injEq] at htok
  refine ⟨String.ext hname, ?_, ?_⟩
  · have h1 := htok.1
    cases hue : u.Enabled <;> cases hve : v.Enabled <;> simp [hue, hve] at h1 ⊢
  · intro k
    have := congrArg (List.filter (fun t => decide (tokenClass t = k))) htok.2
    rwa [filter_groups k _ (class_groups u hu), filter_groups k _ (class_groups v hv)] at this

/-! ## Auxiliary facts on the dispatcher -/

theorem equalFold_iff {unicode : CaseTables}
    (a b : String) : equalFold unicode a b = true ↔ fold unicode a = fold unicode b := by
  simp [equalFold]

theorem equalFold_of_length {unicode : CaseTables} (s t : String)
    (h : s.data.length ≠ t.data.length) : equalFold unicode s t = false := by
  cases hf : equalFold unicode s t with
  | false => rfl
  | true => exact absurd (equalFold_length s t hf) h

theorem equalFold_congr {unicode : CaseTables} (a b x : String) (h : equalFold unicode a b = true) :
    equalFold unicode b x = equalFold unicode a x := by
  rw [equalFold_iff] at h
  simp [equalFold, h]

theorem handleCat_head {unicode : CaseTables}
    (WRONG_ARGS_RESPONSE : String) (commands : List Command)
    (range : CategoryMap → CategoryMap) (a b c d : String) (rest : List String) :
    handleCat unicode WRONG_ARGS_RESPONSE commands range (a :: b :: rest)
      = handleCat unicode WRONG_ARGS_RESPONSE commands range (c :: d :: rest) := by
  unfold handleCat
  cases rest with
  | nil => simp
  | cons x xs =>
    cases xs with
    | nil => simp
    | cons y ys => simp

theorem handleList_head {unicode : CaseTables} (WRONG_ARGS_RESPONSE : String) (acl : ACL)
    (a b c d : String) (rest : List String) :
    handleList unicode WRONG_ARGS_RESPONSE acl (a :: b :: rest)
      = handleList unicode WRONG_ARGS_RESPONSE acl (c :: d :: rest) := by
  simp [handleList]

theorem handleAuth_head (WRONG_ARGS_RESPONSE OK_RESPONSE : String)
    (AuthenticateConnection : Conn → List String → Option String) (conn : Conn)
    (a b c d : String) (rest : List String)
    (h : AuthenticateConnection conn (a :: b :: rest)
      = AuthenticateConnection conn (c :: d :: rest)) :
    handleAuth WRONG_ARGS_RESPONSE OK_RESPONSE AuthenticateConnection conn (a :: b :: rest)
      = handleAuth WRONG_ARGS_RESPONSE OK_RESPONSE AuthenticateConnection conn
          (c :: d :: rest) := by
  simp [handleAuth, h]

/-- The dispatcher on a command of at least two words. -/
theorem HandleCommand_two {unicode : CaseTables}
    (WRONG_ARGS_RESPONSE OK_RESPONSE : String) (acl : ACL)
    (AuthenticateConnection : Conn → List String → Option String)
    (commands : List Command) (range : CategoryMap → CategoryMap)
    (conn : Conn) (a b : String) (rest : List String) :
    HandleCommand unicode WRONG_ARGS_RESPONSE OK_RESPONSE acl AuthenticateConnection commands range
        conn (a :: b :: rest)
      = if equalFold unicode a "auth" then
          some (handleAuth WRONG_ARGS_RESPONSE OK_RESPONSE AuthenticateConnection conn
            (a :: b :: rest))
        else if equalFold unicode a "acl" then
          if toLower unicode b = "getuser" then some (handleGetUser (a :: b :: rest))
          else if toLower unicode b = "cat" then
            some (handleCat unicode WRONG_ARGS_RESPONSE commands range (a :: b :: rest))
          else if toLower unicode b = "users" then some (handleUsers acl (a :: b :: rest))
          else if toLower unicode b = "setuser" then some (handleSetUser (a :: b :: rest))
          else if toLower unicode b = "deluser" then some (handleDelUser acl (a :: b :: rest))
          else if toLower unicode b = "whoami" then some (handleWhoAmI acl conn (a :: b :: rest))
          else if toLower unicode b = "list" then
            some (handleList unicode WRONG_ARGS_RESPONSE acl (a :: b :: rest))
          else if toLower unicode b = "load" then some (handleLoad (a :: b :: rest))
          else if toLower unicode b = "save" then some (handleSave (a :: b :: rest))
          else some (.error "not implemented")
        else some (.error "not implemented") := by
  simp [HandleCommand]

theorem exists_some_ite {α : Type} (c : Prop) [Decidable c] (x y : Option α)
    (hx : ∃ r, x = some r) (hy : ∃ r, y = some r) :
    ∃ r, (if c then x else y) = some r := by
  split
  · exact hx
  · exact hy

/-- The dispatcher returns a reply or an error on every command of at
least two words. -/
theorem HandleCommand_two_some {unicode : CaseTables}
    (WRONG_ARGS_RESPONSE OK_RESPONSE : String) (acl : ACL)
    (AuthenticateConnection : Conn → List String → Option String)
    (commands : List Command) (range : CategoryMap → CategoryMap)
    (conn : Conn) (a b : String) (rest : List String) :
    ∃ result, HandleCommand unicode WRONG_ARGS_RESPONSE OK_RESPONSE acl AuthenticateConnection
      commands range conn (a :: b :: rest) = some result := by
  rw [HandleCommand_two]
  iterate 12 (any_goals (first | apply exists_some_ite | exact ⟨_, rfl⟩))

theorem mapIndex_of_mem (m : List (Conn × Connection)) (h : (m.map Prod.fst).Nodup)
    (conn : Conn) (info : Connection) (hmem : (conn, info) ∈ m) : mapIndex m conn = info := by
  induction m with
  | nil => simp at hmem
  | cons e rest ih =>
    obtain ⟨key, value⟩ := e
    simp only [List.map_cons, List.nodup_cons] at h
    simp only [List.mem_cons, Prod.mk.injEq] at hmem
    rcases hmem with ⟨h1, h2⟩ | hmem
    · subst h1; subst h2; simp [mapIndex]
    · have hne : ¬ key = conn := by
        intro e
        subst e
        exact h.1 (List.mem_map_of_mem Prod.fst hmem)
      simp [mapIndex, hne, ih h.2 hmem]

theorem mapIndex_of_not_mem (m : List (Conn × Connection)) (conn : Conn)
    (h : ∀ e ∈ m, e.1 ≠ conn) : mapIndex m conn = Connection.zero := by
  induction m with
  | nil => rfl
  | cons e rest ih =>
    obtain ⟨key, value⟩ := e
    have hne : ¬ key = conn := h (key, value) (by simp)
    simp [mapIndex, hne, ih (fun e he => h e (by simp [he]))]

theorem endsWithTerminator_append (body : String) :
    endsWithTerminator (body ++ "\r\n\n") = true := by
  simp only [endsWithTerminator, List.isSuffixOf_iff_suffix, String.data_append]
  exact List.suffix_append _ _

theorem array_terminated (xs : List String) :
    endsWithTerminator (arrayOfSimpleStrings xs) = true ↔ xs ≠ [] := by
  cases xs with
  | nil =>
    have h : endsWithTerminator (arrayOfSimpleStrings []) = false := by decide
    simp [h]
  | cons x xs =>
    have h : arrayOfSimpleStrings (x :: xs)
        = ("*" ++ toString (x :: xs).length ++ String.join ((x :: xs).map simpleString))
          ++ "\r\n\n" := by
      simp [arrayOfSimpleStrings]
    rw [h, endsWithTerminator_append]
    simp

/-- A reply of `ACL CAT` ends with the terminator, unless the command has
two words and no category is discovered. -/
theorem handleCat_terminated {unicode : CaseTables}
    (WRONG_ARGS_RESPONSE : String) (commands : List Command)
    (range : CategoryMap → CategoryMap) (hrange : ∀ m, (range m).Perm m)
    (cmd : List String) (reply : String)
    (h : handleCat unicode WRONG_ARGS_RESPONSE commands range cmd = .ok reply) :
    endsWithTerminator reply = true
      ↔ ¬ (cmd.length = 2 ∧ discoveredCategories commands = []) := by
  obtain ⟨hkeys, hnodup, htok⟩ := buildCategories_spec commands
  have hperm := hrange (buildCategories commands)
  rcases cmd with _ | ⟨a, _ | ⟨b, _ | ⟨c, _ | ⟨d, rest⟩⟩⟩⟩
  · simp [handleCat] at h
  · simp [handleCat] at h
  · simp only [handleCat, List.length_cons, List.length_nil, collect_foldl] at h
    have hs := simpleStrings_array ((range (buildCategories commands)).map Prod.fst)
    simp only [List.length_map] at hs
    simp only [Nat.reduceAdd, Nat.reduceLT, if_false, if_true, List.nil_append,
      Nat.zero_add, gt_iff_lt, List.length_map, hs, Except.ok.injEq] at h
    rw [← h, array_terminated]
    simp only [List.length_cons, List.length_nil, Nat.reduceAdd, true_and]
    have e1 : (range (buildCategories commands)).map Prod.fst = []
        ↔ discoveredCategories commands = [] := by
      rw [List.eq_nil_iff_forall_not_mem, List.eq_nil_iff_forall_not_mem]
      constructor
      · intro hx c hc
        exact hx c ((hperm.map Prod.fst).mem_iff.2 ((hkeys c).2 hc))
      · intro hx c hc
        exact hx c ((hkeys c).1 ((hperm.map Prod.fst).mem_iff.1 hc))
    exact not_congr e1
  · have hcases : handleCat unicode WRONG_ARGS_RESPONSE commands range [a, b, c]
        = match findCategory unicode c (range (buildCategories commands)) with
          | some res => .ok res
          | none => .error "category not found" := by
      simp [handleCat]
    rw [hcases] at h
    cases hf : findCategory unicode c (range (buildCategories commands)) with
    | none => rw [hf] at h; simp at h
    | some res =>
      rw [hf] at h
      simp only [Except.ok.injEq] at h
      obtain ⟨e, he, -, hval⟩ := findCategory_some _ _ _ hf
      have hem : e ∈ buildCategories commands := hperm.mem_iff.1 he
      have hek : e.1 ∈ discoveredCategories commands :=
        (hkeys e.1).1 (List.mem_map_of_mem Prod.fst hem)
      have he2 : e.2 = commandTokens commands e.1 := by
        rw [← htok e.1]
        exact (tokensAt_of_mem _ hnodup e.1 e.2 hem).symm
      have hne : e.2 ≠ [] := by
        rw [he2]
        exact commandTokens_ne_nil commands e.1 hek
      rw [← h, hval]
      simp [(array_terminated e.2).2 hne]
  · simp [handleCat] at h

/-! ## `ACL LIST`: the line of one user -/

/-- C1, evaluated on the source: a user whose only key pattern is the
write-only pattern `cache:*` gets no `%W~cache:*` token (the line is just
`writer on`), while a user whose only key pattern is the read-only
pattern `cache:*` gets the token `%W~cache:*` after `%R~cache:*`. -/
theorem C1_write_keys_not_rendered (unicode : CaseTables) :
    writer.IncludedWriteKeys = ["cache:*"] ∧ writer.IncludedReadKeys = [] ∧
    userLine unicode writer = "writer on" ∧
    reader.IncludedReadKeys = ["cache:*"] ∧ reader.IncludedWriteKeys = [] ∧
    userLine unicode reader = "reader off %R~cache:* %W~cache:*" :=
  ⟨rfl, rfl, rfl, rfl, rfl, rfl⟩

/-- C2, as stated, fails: the users `blanketUser` (category `*`) and
`allUser` (a category named `all`) differ in their included categories
and have the same line `dave on +@all`. Likewise a command named `@read`
reads as the category `read`, a password entry of type `md5` leaves no
trace, a channel `a +&b` reads as the two channels `a` and `b`, and the
plaintext password `#abc` reads as the hashed password `abc`. -/
theorem C2_same_line_different_users :
    blanketUser.IncludedCategories ≠ allUser.IncludedCategories ∧
    userLine asciiTables blanketUser = userLine asciiTables allUser ∧
    userLine asciiTables
        { blanketUser with IncludedCategories := [], IncludedCommands := ["@read"] }
      = userLine asciiTables { blanketUser with IncludedCategories := ["read"] } ∧
    userLine asciiTables { allUser with Passwords := [⟨"md5", "d41d8cd9"⟩] }
      = userLine asciiTables allUser ∧
    userLine asciiTables { allUser with IncludedPubSubChannels := ["a +&b"] }
      = userLine asciiTables { allUser with IncludedPubSubChannels := ["a", "b"] } ∧
    userLine asciiTables { allUser with Passwords := [⟨"plaintext", "#abc"⟩] }
      = userLine asciiTables { allUser with Passwords := [⟨"SHA256", "abc"⟩] } := by
  decide

/-- C2, amended: rendering is lossless on rule-formed users, the
write-only key patterns apart. For two users whose username, password
values and rule entries contain no space, whose password entries are of
type `plaintext` or `SHA256` (ignoring case) with no plaintext value
starting with `#`, `+`, `-` or `%`, whose categories and commands are not
named `all` and whose commands do not start with `@` or `&`: if the two
lines are the same, the users have the same username, enabled flag,
password entries (kind and value), included and excluded categories,
included and excluded commands, `IncludedKeys`, `IncludedReadKeys`, and
included and excluded channels. -/
theorem C2_lossless_on_rule_formed (unicode : CaseTables)
    (u v : User) (hu : ruleFormed unicode u = true) (hv : ruleFormed unicode v = true)
    (h : userLine unicode u = userLine unicode v) :
    u.Username = v.Username ∧ u.Enabled = v.Enabled ∧
    u.Passwords.map (passwordKind unicode) = v.Passwords.map (passwordKind unicode) ∧
    u.IncludedCategories = v.IncludedCategories ∧
    u.ExcludedCategories = v.ExcludedCategories ∧
    u.IncludedCommands = v.IncludedCommands ∧
    u.ExcludedCommands = v.ExcludedCommands ∧
    u.IncludedKeys = v.IncludedKeys ∧
    u.IncludedReadKeys = v.IncludedReadKeys ∧
    u.IncludedPubSubChannels = v.IncludedPubSubChannels ∧
    u.ExcludedPubSubChannels = v.ExcludedPubSubChannels := by
  obtain ⟨hname, hen, hgroup⟩ := same_line_same_words u v hu hv h
  obtain ⟨-, hpu, h1u, h2u, h3u, h4u, -⟩ := (ruleFormed_iff u).1 hu
  obtain ⟨-, hpv, h1v, h2v, h3v, h4v, -⟩ := (ruleFormed_iff v).1 hv
  have hcat : ∀ c, categoryFormed c = true → c ≠ "all" := by
    intro c hc
    simp only [categoryFormed, Bool.and_eq_true, bne_iff_ne] at hc
    exact hc.2
  have hcmd : ∀ c, commandFormed c = true → c ≠ "all" := by
    intro c hc
    simp only [commandFormed, Bool.and_eq_true, bne_iff_ne] at hc
    exact hc.1.2
  have g0 := hgroup 0
  have g1 := hgroup 1
  have g2 := hgroup 2
  have g3 := hgroup 3
  have g4 := hgroup 4
  have g5 := hgroup 5
  have g6 := hgroup 6
  have g8 := hgroup 8
  have g9 := hgroup 9
  simp [tokenGroups, List.filter_cons] at g0 g1 g2 g3 g4 g5 g6 g8 g9
  refine ⟨hname, hen, ?_, ?_, ?_, ?_, ?_, ?_, ?_, ?_, ?_⟩
  · exact map_congr_inj (passwordWord unicode) (passwordKind unicode) _ _
      (fun x hx y hy hxy => password_word_kind x y (hpu x hx) (hpv y hy) hxy) g0
  · exact map_inj_on _ _ _ (fun x hx y hy hxy =>
      blanketName_inj x y (hcat x (h1u x hx)) (hcat y (h1v y hy))
        (append_left_cancel _ _ _ hxy)) g1
  · exact map_inj_on _ _ _ (fun x hx y hy hxy =>
      blanketName_inj x y (hcat x (h2u x hx)) (hcat y (h2v y hy))
        (append_left_cancel _ _ _ hxy)) g2
  · exact map_inj_on _ _ _ (fun x hx y hy hxy =>
      blanketName_inj x y (hcmd x (h3u x hx)) (hcmd y (h3v y hy))
        (append_left_cancel _ _ _ hxy)) g3
  · exact map_inj_on _ _ _ (fun x hx y hy hxy =>
      blanketName_inj x y (hcmd x (h4u x hx)) (hcmd y (h4v y hy))
        (append_left_cancel _ _ _ hxy)) g4
  · exact map_inj_on _ _ _ (fun x _ y _ hxy => append_left_cancel _ _ _ hxy) g5
  · exact map_inj_on _ _ _ (fun x _ y _ hxy => append_left_cancel _ _ _ hxy) g6
  · exact map_inj_on _ _ _ (fun x _ y _ hxy => append_left_cancel _ _ _ hxy) g8
  · exact map_inj_on _ _ _ (fun x _ y _ hxy => append_left_cancel _ _ _ hxy) g9

/-- C2 at concrete users: `bob` and `bobWriter` are rule-formed and have
the same line; they differ in the case of the password type and in the
write-only key patterns only. -/
theorem C2_lossless_on_rule_formed_witness :
    ruleFormed asciiTables bob = true ∧ ruleFormed asciiTables bobWriter = true ∧
    userLine asciiTables bob = userLine asciiTables bobWriter ∧
    (bob.Username = bobWriter.Username ∧ bob.Enabled = bobWriter.Enabled ∧
    bob.Passwords.map (passwordKind asciiTables)
      = bobWriter.Passwords.map (passwordKind asciiTables) ∧
    bob.IncludedCategories = bobWriter.IncludedCategories ∧
    bob.ExcludedCategories = bobWriter.ExcludedCategories ∧
    bob.IncludedCommands = bobWriter.IncludedCommands ∧
    bob.ExcludedCommands = bobWriter.ExcludedCommands ∧
    bob.IncludedKeys = bobWriter.IncludedKeys ∧
    bob.IncludedReadKeys = bobWriter.IncludedReadKeys ∧
    bob.IncludedPubSubChannels = bobWriter.IncludedPubSubChannels ∧
    bob.ExcludedPubSubChannels = bobWriter.ExcludedPubSubChannels) :=
  ⟨by decide, by decide, by decide,
    C2_lossless_on_rule_formed asciiTables bob bobWriter (by decide) (by decide) (by decide)⟩

/-- C3, evaluated on the source: for the store holding only `bob`
(enabled, plaintext password `pass1`, `+@read`, `-@write`, `+get`,
`%R~foo:*`), the reply of `ACL LIST` carries one bulk string whose
tokens are those of the scenario followed by the extra token `%W~foo:*`. -/
theorem C3_bob_line_has_extra_write_token (unicode : CaseTables)
    (WRONG_ARGS_RESPONSE : String) :
    handleList unicode WRONG_ARGS_RESPONSE { Users := [bob] } ["acl", "list"]
      = .ok "*1\r\n$50\r\nbob on pass1 +@read -@write +get %R~foo:* %W~foo:*\r\n\n" := by
  have h1 : equalFold unicode "plaintext" "plaintext" = true := equalFold_self _
  have h2 : equalFold unicode "plaintext" "SHA256" = false :=
    equalFold_of_length _ _ (by decide)
  have hline : userLine unicode bob
      = "bob on pass1 +@read -@write +get %R~foo:* %W~foo:*" := by
    simp only [userLine, bob, List.foldl_cons, List.foldl_nil, passwordStep, h1, h2, if_true,
      Bool.false_eq_true, if_false]
    rfl
  simp only [handleList, listStep, List.foldl_cons, List.foldl_nil, hline]
  rfl

/-- C4, as stated, fails: `carol` has one password entry, of type `md5`,
and her line carries no password token at all. -/
theorem C4_unknown_password_type_dropped :
    carol.Passwords = [⟨"md5", "d41d8cd9"⟩] ∧ userLine asciiTables carol = "carol on" := by
  decide

/-- C4, amended: the line of a user is the username, then ` on` for an
enabled user and ` off` otherwise, then one token per password entry of
type `plaintext` or `SHA256` (ignoring case) in stored order, ` value`
for the former and ` #value` for the latter, an entry of any other type
giving no token; the rule tokens follow. -/
theorem C4_line_head (unicode : CaseTables) (u : User) :
    userLine unicode u = u.Username ++ (if u.Enabled then " on" else " off")
      ++ String.join (u.Passwords.map (passwordToken unicode)) ++ renderRules "" u := by
  have hstep := foldl_tokens (passwordStep unicode) (passwordToken unicode) passwordStep_eq u.Passwords
  have hrules := renderRules_append
  simp only [userLine, hstep]
  rw [hrules]
  cases u.Enabled <;> simp [String.append_assoc]

/-- C5: after the password tokens the line carries one token per stored
entry, in stored order, group after group: `+@c` for the included
categories, `-@c` for the excluded categories, `+c` for the included
commands, `-c` for the excluded commands, the key tokens, `+&c` for the
included channels, `-&c` for the excluded channels; a category or
command entry `*` is written with the name `all`, never `*`. -/
theorem C5_rule_tokens (unicode : CaseTables) (u : User) :
    userLine unicode u
      = u.Passwords.foldl (passwordStep unicode) (u.Username ++ (if u.Enabled then " on" else " off"))
        ++ String.join (u.IncludedCategories.map fun c => " +@" ++ blanketName c)
        ++ String.join (u.ExcludedCategories.map fun c => " -@" ++ blanketName c)
        ++ String.join (u.IncludedCommands.map fun c => " +" ++ blanketName c)
        ++ String.join (u.ExcludedCommands.map fun c => " -" ++ blanketName c)
        ++ renderKeys "" u
        ++ String.join (u.IncludedPubSubChannels.map fun c => " +&" ++ c)
        ++ String.join (u.ExcludedPubSubChannels.map fun c => " -&" ++ c)
    ∧ blanketName "*" = "all" ∧ (∀ c, c ≠ "*" → blanketName c = c)
    ∧ ∀ c, blanketName c ≠ "*" := by
  refine ⟨?_, by decide, ?_, ?_⟩
  · unfold userLine
    rw [renderRules_eq]
    cases u.Enabled <;> simp [String.append_assoc]
  · intro c hc
    simp [blanketName, hc]
  · intro c
    unfold blanketName
    split
    · decide
    · assumption

/-! ## `ACL LIST` and `ACL USERS`: the reply -/

/-- C6: for a command of at most two words `ACL LIST` replies with `*N`
followed, for each user in store order, by `\r\n$L\r\n` and the line of
that user, `L` being the byte length of the line, and closed by
`\r\n\n`; the line of a user is `userLine` of that user alone. For a
longer command the result is the wrong-arguments error. -/
theorem C6_list_reply (unicode : CaseTables)
    (WRONG_ARGS_RESPONSE : String) (acl : ACL) (cmd : List String) :
    handleList unicode WRONG_ARGS_RESPONSE acl cmd
      = if cmd.length ≤ 2 then
          .ok ("*" ++ toString acl.Users.length
            ++ String.join (acl.Users.map fun u =>
                "\r\n$" ++ toString (len (userLine unicode u)) ++ "\r\n" ++ userLine unicode u)
            ++ "\r\n\n")
        else .error WRONG_ARGS_RESPONSE := by
  unfold handleList
  by_cases h : cmd.length > 2
  · have h2 : ¬ cmd.length ≤ 2 := by omega
    simp [h, h2]
  · have h2 : cmd.length ≤ 2 := by omega
    simp only [h, h2, if_true, if_false, listStep_foldl, bulkString]

/-- C7: `ACL USERS` never fails; it replies with `*N` followed, for each
user in store order, by `\r\n$L\r\n` and the username, `L` being the byte
length of the username, and closed by `\r\n\n`: one entry per user. -/
theorem C7_users_reply (acl : ACL) (cmd : List String) :
    handleUsers acl cmd
      = .ok ("*" ++ toString acl.Users.length
          ++ String.join (acl.Users.map fun u =>
              "\r\n$" ++ toString (len u.Username) ++ "\r\n" ++ u.Username)
          ++ "\r\n\n") := by
  unfold handleUsers
  simp only [foldl_tokens _ (fun u : User =>
    "\r\n$" ++ toString (len u.Username) ++ "\r\n" ++ u.Username) (fun _ _ => rfl)]

/-! ## `ACL CAT` -/

/-- C8, as stated, fails: in `aclTable` the category `admin` occurs (on
the command `acl`, which has a subcommand) and no two category names are
equal ignoring case, so the claim lists the token `acl` for it; the
source answers `category not found`. The map has the single key `slow`,
so the visiting order plays no part. -/
theorem C8_parent_category_not_listed :
    "admin" ∈ attachedCategories aclTable ∧
    (∀ a ∈ attachedCategories aclTable, ∀ b ∈ attachedCategories aclTable,
      equalFold asciiTables a b = true → a = b) ∧
    taggedTokens aclTable "admin" = ["acl"] ∧
    buildCategories aclTable = [("slow", ["acl|cat"])] ∧
    handleCat asciiTables "wrong number of arguments" aclTable id ["acl", "cat", "admin"]
      = .error "category not found" := by
  refine ⟨by decide, by decide, by decide, by decide, rfl⟩

/-- C8, amended: when no two distinct category names of the table are
equal ignoring case and `c` is attached to a command without subcommands
or to a subcommand, `ACL CAT c` replies, whatever the order in which the
map is visited, with `*N`, the tokens `\r\n+token` and the terminator,
where the tokens are, in table order and one per tag, the name of every
command without subcommands tagged with `c` and `parent|child` for every
subcommand tagged with `c`, and `N` is their number. -/
theorem C8_cat_tokens (unicode : CaseTables)
    (WRONG_ARGS_RESPONSE : String) (commands : List Command)
    (range : CategoryMap → CategoryMap) (hrange : ∀ m, (range m).Perm m)
    (hfold : ∀ a ∈ attachedCategories commands, ∀ b ∈ attachedCategories commands,
      equalFold unicode a b = true → a = b)
    (c : String) (hc : c ∈ discoveredCategories commands) (verb sub : String) :
    handleCat unicode WRONG_ARGS_RESPONSE commands range [verb, sub, c]
      = .ok ("*" ++ toString (commandTokens commands c).length
          ++ String.join ((commandTokens commands c).map fun token => "\r\n+" ++ token)
          ++ "\r\n\n") := by
  obtain ⟨hkeys, hnodup, htok⟩ := buildCategories_spec commands
  have hperm := hrange (buildCategories commands)
  have hsome : ∃ res, findCategory unicode c (range (buildCategories commands)) = some res := by
    cases hf : findCategory unicode c (range (buildCategories commands)) with
    | some res => exact ⟨res, rfl⟩
    | none =>
      rw [findCategory_none] at hf
      have hck : c ∈ (buildCategories commands).map Prod.fst := (hkeys c).2 hc
      obtain ⟨e, he, hec⟩ := List.mem_map.1 hck
      have := hf e (hperm.mem_iff.2 he)
      rw [hec, equalFold_self] at this
      exact absurd this (by simp)
  obtain ⟨res, hres⟩ := hsome
  obtain ⟨e, he, hfe, hval⟩ := findCategory_some _ _ _ hres
  have hem : e ∈ buildCategories commands := hperm.mem_iff.1 he
  have hek : e.1 ∈ discoveredCategories commands :=
    (hkeys e.1).1 (List.mem_map_of_mem Prod.fst hem)
  have hec : e.1 = c :=
    hfold _ (discovered_sub_attached _ _ hek) _ (discovered_sub_attached _ _ hc) hfe
  have he2 : e.2 = commandTokens commands c := by
    rw [← htok c, ← hec]
    exact (tokensAt_of_mem _ hnodup e.1 e.2 hem).symm
  have hne := commandTokens_ne_nil commands c hc
  simp only [handleCat, List.length_cons, List.length_nil, hres]
  simp [hval, he2, arrayOfSimpleStrings, hne, simpleString_def]

/-- C8 at a concrete table: `ACL CAT slow` on `sampleTable`, the map being
visited in reverse order. -/
theorem C8_cat_tokens_witness :
    handleCat asciiTables "wrong number of arguments" sampleTable List.reverse ["ACL", "CAT", "slow"]
      = .ok ("*" ++ toString (commandTokens sampleTable "slow").length
          ++ String.join ((commandTokens sampleTable "slow").map fun token => "\r\n+" ++ token)
          ++ "\r\n\n") :=
  C8_cat_tokens asciiTables "wrong number of arguments" sampleTable List.reverse
    (fun m => List.reverse_perm m) (by decide) "slow" (by decide) "ACL" "CAT"

/-- C9, as stated, fails: in `configTable` the category `admin` is
attached to the command `config` and equals the argument `ADMIN` ignoring
case, yet `ACL CAT ADMIN` answers `category not found`, in both orders of
visiting the two keys of the map. -/
theorem C9_parent_category_not_found :
    (∃ c ∈ attachedCategories configTable, equalFold asciiTables c "ADMIN" = true) ∧
    handleCat asciiTables "wrong number of arguments" configTable id ["acl", "cat", "ADMIN"]
      = .error "category not found" ∧
    handleCat asciiTables "wrong number of arguments" configTable List.reverse ["acl", "cat", "ADMIN"]
      = .error "category not found" := by
  refine ⟨by decide, rfl, rfl⟩

/-- C9, amended: for a command of three words `ACL CAT arg` answers
`category not found` if and only if no category attached to a command
without subcommands or to a subcommand equals `arg` ignoring case; when
one does, it returns a reply; for a command of more than three words it
answers with the wrong-arguments error. -/
theorem C9_cat_not_found (unicode : CaseTables)
    (WRONG_ARGS_RESPONSE : String) (commands : List Command)
    (range : CategoryMap → CategoryMap) (hrange : ∀ m, (range m).Perm m)
    (verb sub arg : String) :
    (handleCat unicode WRONG_ARGS_RESPONSE commands range [verb, sub, arg]
        = .error "category not found"
      ↔ ∀ c ∈ discoveredCategories commands, equalFold unicode c arg = false)
    ∧ ((∃ c ∈ discoveredCategories commands, equalFold unicode c arg = true) →
        ∃ reply, handleCat unicode WRONG_ARGS_RESPONSE commands range [verb, sub, arg] = .ok reply)
    ∧ ∀ cmd : List String, cmd.length > 3 →
        handleCat unicode WRONG_ARGS_RESPONSE commands range cmd = .error WRONG_ARGS_RESPONSE := by
  obtain ⟨hkeys, -, -⟩ := buildCategories_spec commands
  have hperm := hrange (buildCategories commands)
  have hnone : findCategory unicode arg (range (buildCategories commands)) = none
      ↔ ∀ c ∈ discoveredCategories commands, equalFold unicode c arg = false := by
    rw [findCategory_none]
    constructor
    · intro h c hc
      obtain ⟨e, he, hec⟩ := List.mem_map.1 ((hkeys c).2 hc)
      rw [← hec]
      exact h e (hperm.mem_iff.2 he)
    · intro h e he
      exact h e.1 ((hkeys e.1).1 (List.mem_map_of_mem Prod.fst (hperm.mem_iff.1 he)))
  have hcases : handleCat unicode WRONG_ARGS_RESPONSE commands range [verb, sub, arg]
      = match findCategory unicode arg (range (buildCategories commands)) with
        | some res => .ok res
        | none => .error "category not found" := by
    simp [handleCat]
  refine ⟨?_, ?_, ?_⟩
  · rw [hcases, ← hnone]
    cases findCategory unicode arg (range (buildCategories commands)) <;> simp
  · rintro ⟨c, hc, hfc⟩
    rw [hcases]
    cases hf : findCategory unicode arg (range (buildCategories commands)) with
    | some res => exact ⟨res, rfl⟩
    | none =>
      have := (hnone.1 hf) c hc
      rw [hfc] at this
      exact absurd this (by simp)
  · intro cmd hlen
    simp [handleCat, hlen]

/-- C9 at a concrete table: `sampleTable`, the map visited in reverse
order, the argument `ADMIN`. -/
theorem C9_cat_not_found_witness :
    (handleCat asciiTables "wrong number of arguments" sampleTable List.reverse ["acl", "cat", "ADMIN"]
        = .error "category not found"
      ↔ ∀ c ∈ discoveredCategories sampleTable, equalFold asciiTables c "ADMIN" = false)
    ∧ ((∃ c ∈ discoveredCategories sampleTable, equalFold asciiTables c "ADMIN" = true) →
        ∃ reply, handleCat asciiTables "wrong number of arguments" sampleTable List.reverse
          ["acl", "cat", "ADMIN"] = .ok reply)
    ∧ ∀ cmd : List String, cmd.length > 3 →
        handleCat asciiTables "wrong number of arguments" sampleTable List.reverse cmd
          = .error "wrong number of arguments" :=
  C9_cat_not_found asciiTables "wrong number of arguments" sampleTable List.reverse
    (fun m => List.reverse_perm m) "acl" "cat" "ADMIN"

/-- C10, as stated, fails: in `pubsubTable` the category `pubsub` is
attached to the command `pubsub`, which has a subcommand; the table
carries two distinct categories, yet the reply of `ACL CAT` is the array
of the single name `slow`. -/
theorem C10_parent_category_missing :
    "pubsub" ∈ attachedCategories pubsubTable ∧
    (attachedCategories pubsubTable).dedup.length = 2 ∧
    handleCat asciiTables "wrong number of arguments" pubsubTable id ["acl", "cat"]
      = .ok "*1\r\n+slow\r\n\n" := by
  refine ⟨by decide, by decide, rfl⟩

/-- C10, amended: `ACL CAT` without argument never fails; whatever the
order in which the map is visited, its reply is `*N` followed by one
`\r\n+name` per listed name and, unless the list is empty, by the
terminator, where the listed names are without repetition exactly the
categories attached to a command without subcommands or to a subcommand,
and `N` is the number of these distinct categories. -/
theorem C10_cat_names (unicode : CaseTables)
    (WRONG_ARGS_RESPONSE : String) (commands : List Command)
    (range : CategoryMap → CategoryMap) (hrange : ∀ m, (range m).Perm m)
    (verb sub : String) :
    ∃ cats : List String,
      cats.Nodup ∧ (∀ c, c ∈ cats ↔ c ∈ discoveredCategories commands) ∧
      cats.length = (discoveredCategories commands).dedup.length ∧
      handleCat unicode WRONG_ARGS_RESPONSE commands range [verb, sub]
        = .ok ("*" ++ toString cats.length
            ++ String.join (cats.map fun name => "\r\n+" ++ name)
            ++ (if cats = [] then "" else "\r\n\n")) := by
  obtain ⟨hkeys, hnodup, -⟩ := buildCategories_spec commands
  have hperm := (hrange (buildCategories commands)).map Prod.fst
  refine ⟨(range (buildCategories commands)).map Prod.fst, ?_, ?_, ?_, ?_⟩
  · exact hperm.nodup_iff.2 hnodup
  · intro c
    rw [hperm.mem_iff, hkeys]
  · have hp : List.Perm ((buildCategories commands).map Prod.fst)
        (discoveredCategories commands).dedup := by
      rw [List.perm_ext_iff_of_nodup hnodup (List.nodup_dedup _)]
      intro c
      rw [hkeys, List.mem_dedup]
    rw [hperm.length_eq, hp.length_eq]
  · simp only [handleCat, List.length_cons, List.length_nil, collect_foldl]
    have h := simpleStrings_array ((range (buildCategories commands)).map Prod.fst)
    simp only [List.length_map] at h
    simp [h, arrayOfSimpleStrings, simpleString_def]

/-- C10 at a concrete table: `sampleTable`, the map visited in reverse
order. -/
theorem C10_cat_names_witness :
    ∃ cats : List String,
      cats.Nodup ∧ (∀ c, c ∈ cats ↔ c ∈ discoveredCategories sampleTable) ∧
      cats.length = (discoveredCategories sampleTable).dedup.length ∧
      handleCat asciiTables "wrong number of arguments" sampleTable List.reverse ["ACL", "CAT"]
        = .ok ("*" ++ toString cats.length
            ++ String.join (cats.map fun name => "\r\n+" ++ name)
            ++ (if cats = [] then "" else "\r\n\n")) :=
  C10_cat_names asciiTables "wrong number of arguments" sampleTable List.reverse
    (fun m => List.reverse_perm m) "ACL" "CAT"

/-! ## `AUTH` and `ACL WHOAMI` -/

/-- C11: `AUTH` answers with the wrong-arguments error whatever the
authenticator is (it is not consulted) if and only if the command has
fewer than two or more than three words; for a command of two or three
words it answers with the reply `OK_RESPONSE` exactly when the
authenticator succeeds, and otherwise with the error of the authenticator
unchanged. -/
theorem C11_auth_reply (WRONG_ARGS_RESPONSE OK_RESPONSE : String) (conn : Conn)
    (cmd : List String) :
    ((∀ authenticator : Conn → List String → Option String,
        handleAuth WRONG_ARGS_RESPONSE OK_RESPONSE authenticator conn cmd
          = .error WRONG_ARGS_RESPONSE)
      ↔ (cmd.length < 2 ∨ cmd.length > 3))
    ∧ ((2 ≤ cmd.length ∧ cmd.length ≤ 3) →
        ∀ authenticator : Conn → List String → Option String,
          (handleAuth WRONG_ARGS_RESPONSE OK_RESPONSE authenticator conn cmd = .ok OK_RESPONSE
            ↔ authenticator conn cmd = none)
          ∧ ∀ err, authenticator conn cmd = some err →
              handleAuth WRONG_ARGS_RESPONSE OK_RESPONSE authenticator conn cmd
                = .error err) := by
  constructor
  · constructor
    · intro h
      by_contra hlen
      have := h (fun _ _ => none)
      simp [handleAuth, hlen] at this
    · intro hlen authenticator
      simp [handleAuth, hlen]
  · intro hlen authenticator
    have hnot : ¬ (cmd.length < 2 ∨ cmd.length > 3) := by omega
    constructor
    · cases hres : authenticator conn cmd <;> simp [handleAuth, hnot, hres]
    · intro err herr
      simp [handleAuth, hnot, herr]

/-- C12, as stated, fails: in `sampleStore` the connection 3 has no entry
in the registry and the user `default` exists, yet the reply of
`ACL WHOAMI` on that connection is `+` followed by the terminator, with
the empty username of the zero-value entry. -/
theorem C12_no_entry_not_default :
    (∀ e ∈ sampleStore.Connections, e.1 ≠ 3) ∧
    defaultUser ∈ sampleStore.Users ∧
    handleWhoAmI sampleStore 3 ["acl", "whoami"] = .ok "+\r\n\n" := by
  refine ⟨by decide, by decide, rfl⟩

/-- C12, amended: for a connection that has an entry in the registry,
`ACL WHOAMI` replies with `+username` and the terminator, `username`
being that of the user held by the entry; the handler has no fallback of
its own: for a connection without entry the reply carries the empty
username of the zero-value entry. -/
theorem C12_whoami_reply (acl : ACL) (hkeys : (acl.Connections.map Prod.fst).Nodup)
    (conn : Conn) (cmd : List String) :
    (∀ connectionInfo, (conn, connectionInfo) ∈ acl.Connections →
      handleWhoAmI acl conn cmd = .ok ("+" ++ connectionInfo.User.Username ++ "\r\n\n"))
    ∧ ((∀ e ∈ acl.Connections, e.1 ≠ conn) →
      handleWhoAmI acl conn cmd = .ok "+\r\n\n") := by
  constructor
  · intro connectionInfo hmem
    simp [handleWhoAmI, mapIndex_of_mem _ hkeys conn connectionInfo hmem]
  · intro hnone
    simp only [handleWhoAmI, mapIndex_of_not_mem _ conn hnone]
    rfl

/-- C12 at a concrete store: the connection 1 of `sampleStore`, bound to
the user `default`. -/
theorem C12_whoami_reply_witness :
    (sampleStore.Connections.map Prod.fst).Nodup ∧
    (1, (⟨defaultUser⟩ : Connection)) ∈ sampleStore.Connections ∧
    handleWhoAmI sampleStore 1 ["acl", "whoami"] = .ok "+default\r\n\n" :=
  ⟨by decide, by decide,
    (C12_whoami_reply sampleStore (by decide) 1 ["acl", "whoami"]).1 ⟨defaultUser⟩
      (by decide)⟩

/-! ## `HandleCommand` -/

/-- C13, evaluated on the source: the dispatcher stops on an index out of
range, returning neither a reply nor an error, exactly on the empty
command and on a one-word command whose word is `acl` ignoring case; in
particular on `[acl]`. -/
theorem C13_index_out_of_range (unicode : CaseTables)
    (WRONG_ARGS_RESPONSE OK_RESPONSE : String) (acl : ACL)
    (authenticator : Conn → List String → Option String)
    (commands : List Command) (range : CategoryMap → CategoryMap) (conn : Conn) :
    HandleCommand unicode WRONG_ARGS_RESPONSE OK_RESPONSE acl authenticator commands range conn
        ["acl"] = none
    ∧ HandleCommand unicode WRONG_ARGS_RESPONSE OK_RESPONSE acl authenticator commands range conn
        [] = none
    ∧ ∀ cmd : List String,
        HandleCommand unicode WRONG_ARGS_RESPONSE OK_RESPONSE acl authenticator commands range conn
            cmd = none
          ↔ cmd = [] ∨ ∃ word, cmd = [word] ∧ equalFold unicode word "auth" = false
              ∧ equalFold unicode word "acl" = true := by
  have hall : ∀ cmd : List String,
      HandleCommand unicode WRONG_ARGS_RESPONSE OK_RESPONSE acl authenticator commands range
          conn cmd = none
        ↔ cmd = [] ∨ ∃ word, cmd = [word] ∧ equalFold unicode word "auth" = false
            ∧ equalFold unicode word "acl" = true := ?_
  · exact ⟨(hall ["acl"]).2 (Or.inr ⟨"acl", rfl, equalFold_of_length _ _ (by decide),
      equalFold_self _⟩), rfl, hall⟩
  intro cmd
  rcases cmd with _ | ⟨a, _ | ⟨b, rest⟩⟩
  · simp [HandleCommand]
  · by_cases h1 : equalFold unicode a "auth" = true
    · simp [HandleCommand, h1]
    · by_cases h2 : equalFold unicode a "acl" = true
      · simp [HandleCommand, h1, h2]
      · simp [HandleCommand, h1, h2]
  · obtain ⟨result, hres⟩ := HandleCommand_two_some WRONG_ARGS_RESPONSE OK_RESPONSE acl
      authenticator commands range conn a b rest
    rw [hres]
    simp

/-- C14, evaluated on the source: `sampleStore` contains the user `bob`,
and `ACL DELUSER bob` returns the error `ACL DELUSER not implemented` and
no reply; the handler returns this error on every store and every
command, and the dispatcher hands it on for every way of writing `acl`
and `deluser`. -/
theorem C14_deluser_not_implemented :
    bob ∈ sampleStore.Users
    ∧ HandleCommand asciiTables "wrong number of arguments" "+OK" sampleStore
        (sampleAuthenticator asciiTables sampleStore) sampleTable id 2
        ["acl", "deluser", "bob"]
      = some (.error "ACL DELUSER not implemented")
    ∧ (∀ (acl : ACL) (cmd : List String),
        handleDelUser acl cmd = .error "ACL DELUSER not implemented")
    ∧ (∀ (unicode : CaseTables) (WRONG_ARGS_RESPONSE OK_RESPONSE : String) (acl : ACL)
        (authenticator : Conn → List String → Option String) (commands : List Command)
        (range : CategoryMap → CategoryMap) (conn : Conn) (first second : String)
        (usernames : List String),
        equalFold unicode first "auth" = false → equalFold unicode first "acl" = true →
        toLower unicode second = "deluser" →
        HandleCommand unicode WRONG_ARGS_RESPONSE OK_RESPONSE acl authenticator commands range
            conn (first :: second :: usernames)
          = some (.error "ACL DELUSER not implemented")) := by
  refine ⟨by decide, rfl, fun _ _ => rfl, ?_⟩
  intro unicode WRONG_ARGS_RESPONSE OK_RESPONSE acl authenticator commands range conn first
    second usernames h1 h2 h3
  rw [HandleCommand_two]
  simp only [h1, h2, h3, Bool.false_eq_true, if_false, if_true]
  rfl

/-! ## `NewModule` -/

/-- C15: the commands registered by `NewModule` are `auth` and `acl`, the
latter with the subcommands `cat`, `users`, `setuser`, `getuser`,
`deluser`, `whoami`, `list`, `load` and `save`; `auth` and each of these
subcommands carries a key-extraction function, which returns the empty
key list and no error on every argument vector. -/
theorem C15_no_keys (utils : Utils) (acl : ACL) :
    (NewModule utils acl).commands.map (fun command => command.Command) = ["auth", "acl"]
    ∧ ((NewModule utils acl).commands.flatMap fun command =>
          command.SubCommands.map fun subcommand => subcommand.Command)
        = ["cat", "users", "setuser", "getuser", "deluser", "whoami", "list", "load", "save"]
    ∧ (∀ command ∈ (NewModule utils acl).commands, command.Command = "auth" →
        ∃ f, command.KeyExtractionFunc = some f ∧ ∀ cmd, f cmd = .ok [])
    ∧ (∀ command ∈ (NewModule utils acl).commands, ∀ subcommand ∈ command.SubCommands,
        ∃ f, subcommand.KeyExtractionFunc = some f ∧ ∀ cmd, f cmd = .ok []) := by
  refine ⟨rfl, rfl, ?_, ?_⟩
  · intro command hmem hname
    simp only [NewModule, List.mem_cons, List.mem_singleton, List.not_mem_nil, or_false] at hmem
    rcases hmem with h | h
    · subst h
      exact ⟨_, rfl, fun _ => rfl⟩
    · subst h
      simp at hname
  · intro command hmem subcommand hsub
    simp only [NewModule, List.mem_cons, List.mem_singleton, List.not_mem_nil, or_false] at hmem
    rcases hmem with h | h
    · subst h
      simp at hsub
    · subst h
      simp only [List.mem_cons, List.mem_singleton, List.not_mem_nil, or_false] at hsub
      rcases hsub with h | h | h | h | h | h | h | h | h <;> subst h <;>
        exact ⟨_, rfl, fun _ => rfl⟩

/-! ## Letter case and terminators -/

/-- C16, as stated, fails: with an authenticator that compares the
plaintext password of `default` directly, `auth secret` is answered `+OK`
and its re-casing `AUTH SECRET` is answered with an error: the second
word of `AUTH` is a credential. Moreover the subcommand is told by its
lower-case form, not by case folding: `users` written with a long s
equals `users` under case folding and is its own lower-case form, so it
is answered `not implemented`. -/
theorem C16_auth_password_case :
    equalFold asciiTables "auth" "AUTH" = true ∧
    toLower asciiTables "secret" = toLower asciiTables "SECRET" ∧
    HandleCommand asciiTables "wrong number of arguments" "+OK" sampleStore
        (sampleAuthenticator asciiTables sampleStore) sampleTable id 1 ["auth", "secret"]
      = some (.ok "+OK") ∧
    HandleCommand asciiTables "wrong number of arguments" "+OK" sampleStore
        (sampleAuthenticator asciiTables sampleStore) sampleTable id 1 ["AUTH", "SECRET"]
      = some (.error "invalid credential") ∧
    equalFold asciiTables "u\u017Fers" "users" = true ∧
    HandleCommand asciiTables "wrong number of arguments" "+OK" sampleStore
        (sampleAuthenticator asciiTables sampleStore) sampleTable id 1 ["acl", "users"]
      = some (.ok "*2\r\n$7\r\ndefault\r\n$3\r\nbob\r\n\n") ∧
    HandleCommand asciiTables "wrong number of arguments" "+OK" sampleStore
        (sampleAuthenticator asciiTables sampleStore) sampleTable id 1 ["acl", "u\u017Fers"]
      = some (.error "not implemented") := by
  refine ⟨by decide, by decide, rfl, rfl, by decide, rfl, rfl⟩

/-- C16, amended: on a command of at least two words the dispatcher
returns the same result when the first word is replaced by a word equal
to it under case folding and the second by a word with the same
lower-case form, provided that, when the first word is `auth` ignoring
case, the authenticator answers the same on the two commands (`AUTH`
hands the command, whose second word is a credential, unchanged to the
authenticator). A first word that is neither `auth` nor `acl` ignoring
case, and a subcommand of `acl` whose lower-case form is outside the nine
known ones, yield the error `not implemented`. -/
theorem C16_dispatch_ignores_case (unicode : CaseTables)
    (WRONG_ARGS_RESPONSE OK_RESPONSE : String) (acl : ACL)
    (authenticator : Conn → List String → Option String)
    (commands : List Command) (range : CategoryMap → CategoryMap) (conn : Conn)
    (a b a2 b2 : String) (rest : List String)
    (ha : equalFold unicode a a2 = true) (hb : toLower unicode b = toLower unicode b2)
    (hauth : equalFold unicode a "auth" = true →
      authenticator conn (a2 :: b2 :: rest) = authenticator conn (a :: b :: rest)) :
    HandleCommand unicode WRONG_ARGS_RESPONSE OK_RESPONSE acl authenticator commands range conn
        (a2 :: b2 :: rest)
      = HandleCommand unicode WRONG_ARGS_RESPONSE OK_RESPONSE acl authenticator commands range conn
        (a :: b :: rest)
    ∧ (∀ (first : String) (tail : List String),
        equalFold unicode first "auth" = false → equalFold unicode first "acl" = false →
        HandleCommand unicode WRONG_ARGS_RESPONSE OK_RESPONSE acl authenticator commands range conn
          (first :: tail) = some (.error "not implemented"))
    ∧ (∀ (first second : String) (tail : List String),
        equalFold unicode first "auth" = false → toLower unicode second ∉ knownSubcommands →
        HandleCommand unicode WRONG_ARGS_RESPONSE OK_RESPONSE acl authenticator commands range conn
          (first :: second :: tail) = some (.error "not implemented")) := by
  refine ⟨?_, ?_, ?_⟩
  · have hA : ∀ x, equalFold unicode a2 x = equalFold unicode a x :=
      fun x => equalFold_congr a a2 x ha
    have hB : toLower unicode b2 = toLower unicode b := hb.symm
    rw [HandleCommand_two, HandleCommand_two]
    simp only [hA, hB]
    by_cases h1 : equalFold unicode a "auth" = true
    · simp only [h1, if_true]
      rw [handleAuth_head WRONG_ARGS_RESPONSE OK_RESPONSE authenticator conn a2 b2 a b rest
        (hauth h1)]
    · simp only [h1]
      rw [handleCat_head WRONG_ARGS_RESPONSE commands range a2 b2 a b rest,
        handleList_head WRONG_ARGS_RESPONSE acl a2 b2 a b rest]
      rfl
  · intro first tail h1 h2
    simp [HandleCommand, h1, h2]
  · intro first second tail h1 hsub
    simp only [knownSubcommands, List.mem_cons, List.mem_singleton, List.not_mem_nil,
      or_false, not_or] at hsub
    obtain ⟨g1, g2, g3, g4, g5, g6, g7, g8, g9⟩ := hsub
    rw [HandleCommand_two]
    simp only [h1, g1, g2, g3, g4, g5, g6, g7, g8, g9, if_false, Bool.false_eq_true]
    split <;> rfl

/-- C16 at concrete commands: `AuTh secret` against `auth secret` with
the sample authenticator, and `ACL UsErS` against `acl users`. -/
theorem C16_dispatch_ignores_case_witness :
    (HandleCommand asciiTables "wrong number of arguments" "+OK" sampleStore
        (sampleAuthenticator asciiTables sampleStore) sampleTable id 1 ["AuTh", "secret"]
      = HandleCommand asciiTables "wrong number of arguments" "+OK" sampleStore
        (sampleAuthenticator asciiTables sampleStore) sampleTable id 1 ["auth", "secret"])
    ∧ (HandleCommand asciiTables "wrong number of arguments" "+OK" sampleStore
        (sampleAuthenticator asciiTables sampleStore) sampleTable id 1 ["ACL", "UsErS"]
      = HandleCommand asciiTables "wrong number of arguments" "+OK" sampleStore
        (sampleAuthenticator asciiTables sampleStore) sampleTable id 1 ["acl", "users"]) :=
  ⟨(C16_dispatch_ignores_case asciiTables "wrong number of arguments" "+OK" sampleStore
      (sampleAuthenticator asciiTables sampleStore) sampleTable id 1 "auth" "secret" "AuTh" "secret" []
      (by decide) (by decide) (fun _ => rfl)).1,
    (C16_dispatch_ignores_case asciiTables "wrong number of arguments" "+OK" sampleStore
      (sampleAuthenticator asciiTables sampleStore) sampleTable id 1 "acl" "users" "ACL" "UsErS" []
      (by decide) (by decide) (fun h => absurd h (by decide))).1⟩

/-- C17, evaluated on the source: on a command table that yields no
category the reply of `ACL CAT` is `*0`, without the terminator. A reply
of `ACL CAT` ends with the terminator in every other case, and so does
every reply of `ACL USERS`, `ACL LIST` and `ACL WHOAMI`. -/
theorem C17_empty_cat_reply_unterminated (unicode : CaseTables) (WRONG_ARGS_RESPONSE : String) :
    handleCat unicode WRONG_ARGS_RESPONSE [] id ["acl", "cat"] = .ok "*0"
    ∧ endsWithTerminator "*0" = false
    ∧ (∀ (commands : List Command) (range : CategoryMap → CategoryMap),
        (∀ m, (range m).Perm m) → ∀ cmd reply,
        handleCat unicode WRONG_ARGS_RESPONSE commands range cmd = .ok reply →
        (endsWithTerminator reply = true
          ↔ ¬ (cmd.length = 2 ∧ discoveredCategories commands = [])))
    ∧ (∀ (acl : ACL) (cmd : List String) (reply : String),
        handleUsers acl cmd = .ok reply → endsWithTerminator reply = true)
    ∧ (∀ (acl : ACL) (cmd : List String) (reply : String),
        handleList unicode WRONG_ARGS_RESPONSE acl cmd = .ok reply → endsWithTerminator reply = true)
    ∧ (∀ (acl : ACL) (conn : Conn) (cmd : List String) (reply : String),
        handleWhoAmI acl conn cmd = .ok reply → endsWithTerminator reply = true) := by
  refine ⟨rfl, by decide, ?_, ?_, ?_, ?_⟩
  · intro commands range hrange cmd reply h
    exact handleCat_terminated WRONG_ARGS_RESPONSE commands range hrange cmd reply h
  · intro acl cmd reply h
    simp only [handleUsers, Except.ok.injEq] at h
    rw [← h]
    exact endsWithTerminator_append _
  · intro acl cmd reply h
    unfold handleList at h
    split at h
    · simp at h
    · simp only [Except.ok.injEq] at h
      rw [← h]
      exact endsWithTerminator_append _
  · intro acl conn cmd reply h
    simp only [handleWhoAmI, Except.ok.injEq] at h
    rw [← h]
    exact endsWithTerminator_append _

end acl
